import Mathlib

/-!
Shallow embedding of `src/validate-package.js` (the VPkg package validator).

The validator is a Node.js class `PackageValidator` holding three mutable
lists (`errors`, `warnings`, `info`).  We embed it as explicit state passing
over `VState`.  JavaScript/YAML values are embedded as `JVal`; the local
filesystem as a finite tree `FSNode`; the external `js-yaml` parser as a
function parameter `parse : String -> Except String JVal` (it is an external
library, not part of the repository).  JavaScript exceptions (TypeError on
property access of null, `.match` on non-strings, filesystem errors) are
embedded as `Option String` / `Except String` results threaded through the
control flow exactly where the source can throw; the `try`/`catch` blocks of
the source catch them where the source does.

`log` reads the wall clock (`new Date().toISOString()`) on every call; we
model the clock as a stream `VState.clock` consumed one tick per `log` call.
As in the source, the timestamp is never included in the recorded message.
-/

/-- Severity levels of `PackageValidator.log` (plus the `success` level,
which prints but records nothing). -/
inductive Level where
  | error
  | warning
  | info
  | success
deriving Repr, DecidableEq

/-- The mutable state of a `PackageValidator` instance: the three finding
lists, plus the wall-clock stream read (and discarded) by `log`. -/
structure VState where
  clock : List String
  errors : List String
  warnings : List String
  info : List String
deriving Repr, DecidableEq

/-- `PackageValidator.log(level, message)`: reads the clock, appends the
message to the list matching the severity.  The timestamp is computed but
never used in the stored message, exactly as in the source
(`const timestamp = new Date().toISOString();` is dead code there). -/
def log (level : Level) (message : String) (s : VState) : VState :=
  let _timestamp := s.clock.headD ""
  let s2 : VState := { s with clock := s.clock.tail }
  match level with
  | Level.error => { s2 with errors := s2.errors ++ [message] }
  | Level.warning => { s2 with warnings := s2.warnings ++ [message] }
  | Level.info => { s2 with info := s2.info ++ [message] }
  | Level.success => s2

/-- `if (cond) this.log(level, msg)` - the conditional-logging statement
shape used throughout the source. -/
def condLog (cond : Bool) (level : Level) (message : String) (s : VState) : VState :=
  if cond then log level message s else s

/-- Embedded JavaScript/YAML values (`yaml.load` output and everything the
validator touches). `null` also stands for JS `undefined`: the two are
interchangeable for every operation the validator performs (truthiness,
property access, stringification differences never reach a finding). -/
inductive JVal where
  | null
  | bool (b : Bool)
  | num (n : Int)
  | str (s : String)
  | arr (elems : List JVal)
  | obj (fields : List (String × JVal))

/-- Property access `v[k]` on a value already known non-null: objects give
the field (or undefined), primitives and arrays give undefined for the keys
the validator reads.  Access on `null` throws in JS and is handled at each
call site. -/
def JVal.getF : JVal → String → JVal
  | JVal.obj fields, k => (fields.lookup k).getD JVal.null
  | _, _ => JVal.null

/-- JS truthiness: `undefined/null`, `false`, `0`, `""` are falsy; arrays
and objects (even empty ones) are truthy. -/
def JVal.truthy : JVal → Bool
  | JVal.null => false
  | JVal.bool b => b
  | JVal.num n => n != 0
  | JVal.str s => s != ""
  | JVal.arr _ => true
  | JVal.obj _ => true

def JVal.isNull : JVal → Bool
  | JVal.null => true
  | _ => false

def JVal.isStr : JVal → Bool
  | JVal.str _ => true
  | _ => false

/-- `Array.isArray(v)`. -/
def JVal.isArr : JVal → Bool
  | JVal.arr _ => true
  | _ => false

def strJoin (sep : String) : List String → String
  | [] => ""
  | [x] => x
  | x :: xs => x ++ sep ++ strJoin sep xs

/-- JS template-literal stringification of the values that can reach a
message.  Array elements are stringified one level deep (nested arrays and
objects inside arrays never occur in the validator's messages). -/
def JVal.toDisplay : JVal → String
  | JVal.null => "undefined"
  | JVal.bool b => if b then "true" else "false"
  | JVal.num n => toString n
  | JVal.str s => s
  | JVal.arr xs =>
    strJoin "," (xs.map (fun e =>
      match e with
      | JVal.str t => t
      | JVal.num n => toString n
      | JVal.bool b => if b then "true" else "false"
      | _ => ""))
  | JVal.obj _ => "[object Object]"

/-- `v.match(re)` evaluated as `re` on the string, used only where the
receiver is known to be a string (non-string receivers throw; the throw is
modeled at each call site). -/
def jvalStrMatches (v : JVal) (re : String → Bool) : Bool :=
  match v with
  | JVal.str s => re s
  | _ => false

/-- Strict equality `v === lit` against a string literal. -/
def jvalIsStrVal (v : JVal) (lit : String) : Bool :=
  match v with
  | JVal.str s => s == lit
  | _ => false

/-- `validTypes.includes(v)` - strict-equality membership against a list of
string literals. -/
def jvalInList (v : JVal) (lits : List String) : Bool :=
  match v with
  | JVal.str s => lits.contains s
  | _ => false

/-- `haystack.includes(needle)` on `List Char`. -/
def containsSub (needle : List Char) : List Char → Bool
  | [] => needle.isEmpty
  | c :: rest => needle.isPrefixOf (c :: rest) || containsSub needle rest

/-- JS `String.prototype.includes`. -/
def strIncludes (hay needle : String) : Bool :=
  containsSub needle.toList hay.toList

/-- JS `String.prototype.endsWith`. -/
def strEndsWith (s suffix : String) : Bool :=
  suffix.toList.isSuffixOf s.toList

/-- JS `String.prototype.toLowerCase` (the validator's contents are ASCII;
`Char.toLower` agrees with JS there). -/
def jsToLower (s : String) : String :=
  String.mk (s.toList.map Char.toLower)

/-- `\d` of JS regexes. -/
def isDigitC (c : Char) : Bool := c.isDigit

/-- `\w` of JS regexes (ASCII word characters). -/
def isWordC (c : Char) : Bool := c.isAlphanum || c == '_'

/-- `\s` of JS regexes, restricted to the ASCII whitespace characters that
can occur in the validator's inputs. -/
def isSpaceC (c : Char) : Bool :=
  c == ' ' || c == '\t' || c == '\n' || c == '\r' || c == '\x0b' || c == '\x0c'

/-- `[a-z0-9-]` of the package-name regex. -/
def isNameChar (c : Char) : Bool := c.isLower || c.isDigit || c == '-'

/-- Regex atoms sufficient for the five regexes of the source: a single
character from a class, an optional/zero-or-more/one-or-more class. -/
inductive Pat where
  | cls (p : Char → Bool)
  | opt (p : Char → Bool)
  | star (p : Char → Bool)
  | plus (p : Char → Bool)

/-- A string literal as a regex fragment. -/
def litP (t : String) : List Pat :=
  t.toList.map (fun c => Pat.cls (fun d => d == c))

/-- Fueled backtracking matcher: does some prefix of `s` match the
sequence `ps`?  Every recursive call strictly decreases
`ps.length + s.length`, so any fuel above that sum is enough; the fuel
only makes the recursion structural (hence kernel-computable). -/
def matchSeqF : Nat → List Pat → List Char → Bool
  | 0, _, _ => false
  | _ + 1, [], _ => true
  | _ + 1, Pat.cls _ :: _, [] => false
  | f + 1, Pat.cls p :: ps, c :: rest => p c && matchSeqF f ps rest
  | f + 1, Pat.opt _ :: ps, [] => matchSeqF f ps []
  | f + 1, Pat.opt p :: ps, c :: rest =>
      matchSeqF f ps (c :: rest) || (p c && matchSeqF f ps rest)
  | f + 1, Pat.star _ :: ps, [] => matchSeqF f ps []
  | f + 1, Pat.star p :: ps, c :: rest =>
      matchSeqF f ps (c :: rest) || (p c && matchSeqF f (Pat.star p :: ps) rest)
  | _ + 1, Pat.plus _ :: _, [] => false
  | f + 1, Pat.plus p :: ps, c :: rest => p c && matchSeqF f (Pat.star p :: ps) rest

/-- The unanchored-end matcher (for regexes without a trailing `$`). -/
def matchSeq (ps : List Pat) (s : List Char) : Bool :=
  matchSeqF (ps.length + s.length + 1) ps s

/-- Fueled matcher for fully anchored regexes (`^...$`): all of `s` must
be consumed. -/
def matchExactF : Nat → List Pat → List Char → Bool
  | 0, _, _ => false
  | _ + 1, [], s => s.isEmpty
  | _ + 1, Pat.cls _ :: _, [] => false
  | f + 1, Pat.cls p :: ps, c :: rest => p c && matchExactF f ps rest
  | f + 1, Pat.opt _ :: ps, [] => matchExactF f ps []
  | f + 1, Pat.opt p :: ps, c :: rest =>
      matchExactF f ps (c :: rest) || (p c && matchExactF f ps rest)
  | f + 1, Pat.star _ :: ps, [] => matchExactF f ps []
  | f + 1, Pat.star p :: ps, c :: rest =>
      matchExactF f ps (c :: rest) || (p c && matchExactF f (Pat.star p :: ps) rest)
  | _ + 1, Pat.plus _ :: _, [] => false
  | f + 1, Pat.plus p :: ps, c :: rest => p c && matchExactF f (Pat.star p :: ps) rest

/-- The fully anchored matcher. -/
def matchExact (ps : List Pat) (s : List Char) : Bool :=
  matchExactF (ps.length + s.length + 1) ps s

/-- Unanchored search: does `ps` match starting at any position of `s`? -/
def searchSeq (ps : List Pat) : List Char → Bool
  | [] => matchSeq ps []
  | c :: rest => matchSeq ps (c :: rest) || searchSeq ps rest

/-- Search for a match starting just after some newline (the non-initial
positions at which a multiline `^` anchors). -/
def afterNlSearch (ps : List Pat) : List Char → Bool
  | [] => false
  | c :: rest => (c == '\n' && matchSeq ps rest) || afterNlSearch ps rest

/-- Search for `^pattern` under the `m` flag: at the start of the string or
right after any newline. -/
def searchMultiline (ps : List Pat) (s : List Char) : Bool :=
  matchSeq ps s || afterNlSearch ps s

/-- `/^\d+\.\d+$/` - the meta.yaml version format. -/
def metaVersionOk (v : String) : Bool :=
  matchExact [Pat.plus isDigitC, Pat.cls (fun c => c == '.'), Pat.plus isDigitC] v.toList

/-- `/^[a-z0-9\-]+\/[a-z0-9\-]+$/` - the package name format. -/
def pkgNameOk (nm : String) : Bool :=
  matchExact [Pat.plus isNameChar, Pat.cls (fun c => c == '/'), Pat.plus isNameChar] nm.toList

/-- `/^v?\d+\.\d+\.\d+/` - the package version format (anchored at the
start only, no `m` flag, so only position 0). -/
def pkgVersionOk (v : String) : Bool :=
  matchSeq
    [Pat.opt (fun c => c == 'v'), Pat.plus isDigitC, Pat.cls (fun c => c == '.'),
     Pat.plus isDigitC, Pat.cls (fun c => c == '.'), Pat.plus isDigitC] v.toList

/-- `content.match(/^package\s+\w+/m)` - the Go package-declaration check. -/
def goHasPackageDecl (content : String) : Bool :=
  searchMultiline (litP "package" ++ [Pat.plus isSpaceC, Pat.plus isWordC]) content.toList

/-- One attempted match of `/func\s+(\w+)/` at the current position: the
full match string (`"func"`, then the maximal whitespace run, then the
maximal word run - the character classes are disjoint, so backtracking can
produce no other match) together with its length. -/
def funcMatchAt (s : List Char) : Option (List Char × Nat) :=
  if ("func".toList).isPrefixOf s then
    let rest := s.drop 4
    let ws := rest.takeWhile isSpaceC
    let rest2 := rest.drop ws.length
    let wd := rest2.takeWhile isWordC
    if 0 < ws.length && 0 < wd.length then
      some ("func".toList ++ ws ++ wd, 4 + ws.length + wd.length)
    else none
  else none

/-- Fueled scan for `content.match(/func\s+(\w+)/g)`: left to right,
collecting non-overlapping matches and resuming after each one.  A match
consumes at least one character, so any fuel above `s.length` is enough;
the fuel only makes the recursion structural. -/
def scanFuncMatchesF : Nat → List Char → List (List Char)
  | 0, _ => []
  | f + 1, s =>
    match funcMatchAt s with
    | some (m, k) => m :: scanFuncMatchesF f (s.drop k)
    | none =>
      match s with
      | [] => []
      | _ :: rest => scanFuncMatchesF f rest

/-- All matches of `/func\s+(\w+)/g` in `s`. -/
def scanFuncMatches (s : List Char) : List (List Char) :=
  scanFuncMatchesF (s.length + 1) s

/-- JS `String.prototype.replace` with a string pattern: replace the first
occurrence only (the source uses `match.replace('func ', '')`). -/
def replaceFirst (pat repl : List Char) : List Char → List Char
  | [] => []
  | c :: rest =>
    if pat.isPrefixOf (c :: rest) then repl ++ (c :: rest).drop pat.length
    else c :: replaceFirst pat repl rest

/-- `funcName.charAt(0) === funcName.charAt(0).toUpperCase()` (the empty
string satisfies it vacuously in JS; it cannot occur here). -/
def isPublicName : List Char → Bool
  | [] => true
  | c :: _ => c == c.toUpper

/-- The regex `new RegExp("//.*\\n\\s*func\\s+" + funcName, 'm')` built for
each public function (the injected `funcName` consists of word and
whitespace characters only, so it is a literal fragment). -/
def docCommentPat (funcName : List Char) : List Pat :=
  [Pat.cls (fun c => c == '/'), Pat.cls (fun c => c == '/'),
   Pat.star (fun c => !(c == '\n')), Pat.cls (fun c => c == '\n'),
   Pat.star isSpaceC] ++ litP "func" ++ [Pat.plus isSpaceC] ++
  funcName.map (fun c => Pat.cls (fun d => d == c))

/-- `content.match(funcRegex)` truthiness for the documentation-comment
check. -/
def hasDocComment (content : String) (funcName : List Char) : Bool :=
  searchSeq (docCommentPat funcName) content.toList

/-- A finite filesystem tree: what `fs.existsSync` / `fs.readFileSync` /
`fs.readdirSync` / `fs.statSync` observe during one run. -/
inductive FSNode where
  | file (content : String)
  | dir (entries : List (String × FSNode))

/-- Resolve a path (as components) in the tree: structural recursion on
the component list. -/
def resolvePath : List String → FSNode → Option FSNode
  | [], n => some n
  | p :: ps, FSNode.dir es =>
    match es.lookup p with
    | some child => resolvePath ps child
    | none => none
  | _ :: _, FSNode.file _ => none

/-- Resolve a path (as components) in the tree. -/
def FSNode.resolve (n : FSNode) (ps : List String) : Option FSNode :=
  resolvePath ps n

/-- Split a character list on `/`. -/
def splitPathAux : List Char → List Char → List String
  | [], acc => [String.mk acc.reverse]
  | c :: rest, acc =>
    if c == '/' then String.mk acc.reverse :: splitPathAux rest []
    else splitPathAux rest (c :: acc)

/-- Split a path string on `/`, like `"a/b".split('/')` (entry names
contain no `/`, so `path.join` and this splitting are inverse to each
other on the paths the validator builds). -/
def splitPath (p : String) : List String := splitPathAux p.toList []

/-- `fs.existsSync(p)`. -/
def pathExists (fs : FSNode) (p : String) : Bool :=
  (fs.resolve (splitPath p)).isSome

/-- `fs.existsSync(pkg.templates)`: the validator only ever gets here with
string paths; a non-string path is treated as non-existing. -/
def fsExistsJ (fs : FSNode) (v : JVal) : Bool :=
  match v with
  | JVal.str p => pathExists fs p
  | _ => false

/-- `fs.readFileSync(p, 'utf8')`, throwing (as an `Except.error` message)
when the path is missing or is a directory. -/
def FSNode.readFile (fs : FSNode) (p : String) : Except String String :=
  match fs.resolve (splitPath p) with
  | some (FSNode.file c) => Except.ok c
  | some (FSNode.dir _) => Except.error ("EISDIR: illegal operation on a directory, read " ++ p)
  | none => Except.error ("ENOENT: no such file or directory, open " ++ p)

/-- `path.join(dir, item)`. -/
def pathJoin (a b : String) : String := a ++ "/" ++ b

/-- The recursive walk of `findTemplateFiles`: directories are entered
depth-first in enumeration order, and regular files are kept when their
name ends in `.tmpl`.  Walking the child node directly is faithful to the
path-based `statSync`/`readdirSync` of the source because entry names
contain no `/`. -/
def walkEntries (dirPath : String) : List (String × FSNode) → List String
  | [] => []
  | (name, FSNode.dir es) :: rest =>
    walkEntries (pathJoin dirPath name) es ++ walkEntries dirPath rest
  | (name, FSNode.file _) :: rest =>
    (if strEndsWith name ".tmpl" then [pathJoin dirPath name] else []) ++ walkEntries dirPath rest

/-- `PackageValidator.findTemplateFiles(dir)`: returns `[]` when the
directory does not exist, throws `ENOTDIR` when the path names a regular
file (the source's `readdirSync` would), otherwise walks recursively. -/
def findTemplateFiles (fs : FSNode) (dir : String) : Except String (List String) :=
  match fs.resolve (splitPath dir) with
  | none => Except.ok []
  | some (FSNode.file _) =>
    Except.error ("ENOTDIR: not a directory, scandir " ++ dir)
  | some (FSNode.dir es) => Except.ok (walkEntries dir es)

/-- `findTemplateFiles` applied to the raw `pkg.templates` value. -/
def findTemplateFilesJ (fs : FSNode) (v : JVal) : Except String (List String) :=
  match v with
  | JVal.str d => findTemplateFiles fs d
  | _ => Except.ok []

/-- Required top-level fields of `meta.yaml`. -/
def requiredMetaFields : List String :=
  ["version", "repository", "author", "license", "packages"]

/-- Required fields of each package definition (the templates directory is
declared under the key `templates`). -/
def requiredPackageFields : List String :=
  ["name", "title", "description", "type", "templates", "version"]

/-- The recognized package types. -/
def validTypes : List String :=
  ["fx-module", "cli-command", "utility", "middleware", "service"]

/-- The template variables the validator reports as recognized. -/
def commonVars : List String :=
  ["Title", "Package", "Module", "Namespace", "Description"]

/-- `${index + 1}` - packages are reported with a 1-based index. -/
def pkgNum (index : Nat) : String := toString (index + 1)

/-- The `for (const field of requiredFields) if (!x[field]) log error`
loop shape used for both `meta.yaml` fields and package fields. -/
def missingFieldsLoop (fields : List String) (getF : String → JVal)
    (msgOf : String → String) (s : VState) : VState :=
  fields.foldl (fun st field =>
    if (getF field).truthy then st else log Level.error (msgOf field) st) s

/-- `PackageValidator.validatePackageDefinition(pkg, index)`.  The second
component models a JavaScript exception in flight: `pkg.name` on a null
entry, or `.match` on a truthy non-string `name`/`version`, throws a
TypeError that propagates to the caller. -/
def validatePackageDefinition (fs : FSNode) (pkg : JVal) (index : Nat)
    (s : VState) : VState × Option String :=
  if pkg.isNull then
    (s, some "Cannot read properties of null (reading \x27name\x27)")
  else
  let nameV := pkg.getF "name"
  let s := log Level.info ("Validating package " ++ pkgNum index ++ ": " ++
    (if nameV.truthy then nameV.toDisplay else "unnamed")) s
  let s := missingFieldsLoop requiredPackageFields pkg.getF
    (fun field => "Package " ++ pkgNum index ++ ": Missing required field: " ++ field) s
  if nameV.truthy && !nameV.isStr then
    (s, some "pkg.name.match is not a function")
  else
  let s := condLog (nameV.truthy && !jvalStrMatches nameV pkgNameOk) Level.error
    ("Package " ++ pkgNum index ++
     ": Invalid name format. Should be \x27org/package-name\x27, found: " ++
     nameV.toDisplay) s
  let typeV := pkg.getF "type"
  let s := condLog (typeV.truthy && !jvalInList typeV validTypes) Level.warning
    ("Package " ++ pkgNum index ++ ": Unknown type \x27" ++ typeV.toDisplay ++
     "\x27. Valid types: " ++ strJoin ", " validTypes) s
  let verV := pkg.getF "version"
  if verV.truthy && !verV.isStr then
    (s, some "pkg.version.match is not a function")
  else
  let s := condLog (verV.truthy && !jvalStrMatches verV pkgVersionOk) Level.warning
    ("Package " ++ pkgNum index ++
     ": Version should follow semantic versioning (e.g., \x27v1.0.0\x27), found: " ++
     verV.toDisplay) s
  let tplV := pkg.getF "templates"
  let s := condLog (tplV.truthy && !fsExistsJ fs tplV) Level.error
    ("Package " ++ pkgNum index ++ ": Templates directory not found: " ++ tplV.toDisplay) s
  let tagsV := pkg.getF "tags"
  let s := condLog (tagsV.truthy && !tagsV.isArr) Level.error
    ("Package " ++ pkgNum index ++ ": tags field must be an array") s
  let depsV := pkg.getF "dependencies"
  let s := condLog (depsV.truthy && !depsV.isArr) Level.error
    ("Package " ++ pkgNum index ++ ": dependencies field must be an array") s
  (s, none)

/-- One step of `meta.packages.forEach((pkg, index) => validatePackageDefinition)`:
once an exception is in flight, the remaining callbacks never run. -/
def packagesStep (fs : FSNode) (acc : VState × Option String × Nat) (pkg : JVal) :
    VState × Option String × Nat :=
  match acc with
  | (st, some e, i) => (st, some e, i)
  | (st, none, i) =>
    let r := validatePackageDefinition fs pkg i st
    (r.1, r.2, i + 1)

/-- `PackageValidator.validateMetaYaml()`.  Returns the new state and the
boolean result.  Every exception inside the `try` block (parse failure,
property access on a null document, `.match` on a non-string version, and
an exception escaping `validatePackageDefinition`) is caught and logged as
`Failed to parse meta.yaml: ...`. -/
def validateMetaYaml (parse : String → Except String JVal) (fs : FSNode)
    (s : VState) : VState × Bool :=
  let s := log Level.info "Validating meta.yaml..." s
  if !pathExists fs "meta.yaml" then
    (log Level.error "meta.yaml file not found" s, false)
  else
  match fs.readFile "meta.yaml" with
  | Except.error e => (log Level.error ("Failed to parse meta.yaml: " ++ e) s, false)
  | Except.ok content =>
  match parse content with
  | Except.error e => (log Level.error ("Failed to parse meta.yaml: " ++ e) s, false)
  | Except.ok meta =>
  if meta.isNull then
    (log Level.error
      "Failed to parse meta.yaml: Cannot read properties of null (reading \x27version\x27)" s,
     false)
  else
  let s := missingFieldsLoop requiredMetaFields meta.getF
    (fun field => "Missing required field in meta.yaml: " ++ field) s
  let verV := meta.getF "version"
  if verV.truthy && !verV.isStr then
    (log Level.error "Failed to parse meta.yaml: meta.version.match is not a function" s,
     false)
  else
  let s := condLog (verV.truthy && !jvalStrMatches verV metaVersionOk) Level.warning
    ("Version format should be X.Y (e.g., \"3.0\"), found: " ++ verV.toDisplay) s
  match meta.getF "packages" with
  | JVal.arr pkgs =>
    if pkgs.isEmpty then (log Level.error "packages array cannot be empty" s, false)
    else
    match pkgs.foldl (packagesStep fs) (s, none, 0) with
    | (st, some e, _) => (log Level.error ("Failed to parse meta.yaml: " ++ e) st, false)
    | (st, none, _) => (log Level.success "meta.yaml structure is valid" st, true)
  | _ => (log Level.error "packages field must be an array" s, false)

/-- `PackageValidator.validateGoTemplate`: helper for the public-function
documentation loop (`functionMatches.forEach`). -/
def funcDocStep (filePath content : String) (st : VState) (m : List Char) : VState :=
  let funcName := replaceFirst ("func ".toList) [] m
  if isPublicName funcName then
    condLog (!hasDocComment content funcName) Level.warning
      (filePath ++ ": Public function " ++ String.mk funcName ++
       " missing documentation comment") st
  else st

/-- `PackageValidator.validateGoTemplate(filePath, content, pkg)`. -/
def validateGoTemplate (filePath content : String) (pkg : JVal) (s : VState) :
    VState × Bool :=
  if !goHasPackageDecl content then
    (log Level.error (filePath ++ ": Missing package declaration") s, false)
  else
  let s :=
    if jvalIsStrVal (pkg.getF "type") "fx-module" then
      let s := condLog (!strIncludes content "go.uber.org/fx") Level.warning
        (filePath ++ ": fx-module should import go.uber.org/fx") s
      condLog (!(strIncludes content "var Module" || strIncludes content "func NewModule"))
        Level.warning (filePath ++ ": fx-module should export Module or NewModule function") s
    else s
  let s := (scanFuncMatches content.toList).foldl (funcDocStep filePath content) s
  (log Level.success (filePath ++ ": Go template validation passed") s, true)

/-- `PackageValidator.validateReadmeTemplate(filePath, content, pkg)`. -/
def validateReadmeTemplate (filePath content : String) (_pkg : JVal) (s : VState) :
    VState × Bool :=
  let hasHeadings := (["#", "##", "###"] : List String).any (fun heading => strIncludes content heading)
  let s := condLog (!hasHeadings) Level.warning (filePath ++ ": No markdown headings found") s
  let s := condLog (!strIncludes (jsToLower content) "install") Level.warning
    (filePath ++ ": No installation instructions found") s
  let s := condLog (!strIncludes content "```") Level.warning
    (filePath ++ ": No code examples found") s
  (log Level.success (filePath ++ ": README template validation passed") s, true)

/-- `PackageValidator.validateTemplateFile(filePath, pkg)`: the variable
checks, then dispatch on the file kind.  The `try`/`catch` around the body
turns a failed read into an error finding; nothing after the read throws. -/
def validateTemplateFile (fs : FSNode) (filePath : String) (pkg : JVal) (s : VState) :
    VState × Bool :=
  let s := log Level.info ("Validating template: " ++ filePath) s
  match fs.readFile filePath with
  | Except.error e =>
    (log Level.error ("Failed to read template file " ++ filePath ++ ": " ++ e) s, false)
  | Except.ok content =>
  let hasTemplateVars := strIncludes content "\x7b\x7b" && strIncludes content "\x7d\x7d"
  let s := condLog (!hasTemplateVars) Level.warning
    (filePath ++ ": No template variables found (might be a static file)") s
  let usedVars := commonVars.filter (fun v => strIncludes content ("\x7b\x7b." ++ v ++ "\x7d\x7d"))
  let s := condLog (!usedVars.isEmpty) Level.success
    (filePath ++ ": Uses template variables: " ++ strJoin ", " usedVars) s
  if strEndsWith filePath ".go.tmpl" then validateGoTemplate filePath content pkg s
  else if strIncludes filePath "README" || strIncludes filePath "readme" then
    validateReadmeTemplate filePath content pkg s
  else (s, true)

/-- `validatePackageTemplates`: the `templateFiles.forEach` step. -/
def filesStep (fs : FSNode) (pkg : JVal) (acc : VState × Bool) (fp : String) :
    VState × Bool :=
  let r := validateTemplateFile fs fp pkg acc.1
  (r.1, acc.2 && r.2)

/-- `PackageValidator.validatePackageTemplates(pkg, index)`.  An
`Except.error` output models the `readdirSync` exception thrown when the
declared templates path is a regular file, which propagates to
`validateTemplates`. -/
def validatePackageTemplates (fs : FSNode) (pkg : JVal) (index : Nat) (s : VState) :
    VState × Except String Bool :=
  let s := log Level.info ("Validating templates for package: " ++ (pkg.getF "name").toDisplay) s
  let tplV := pkg.getF "templates"
  match findTemplateFilesJ fs tplV with
  | Except.error e => (s, Except.error e)
  | Except.ok templateFiles =>
  if templateFiles.isEmpty then
    (log Level.error ("Package " ++ pkgNum index ++ ": No template files found in " ++
        tplV.toDisplay) s,
     Except.ok false)
  else
  let s := log Level.success ("Found " ++ toString templateFiles.length ++
    " template files for " ++ (pkg.getF "name").toDisplay) s
  let r := templateFiles.foldl (filesStep fs pkg) (s, true)
  (r.1, Except.ok r.2)

/-- One step of the `meta.packages.forEach` of `validateTemplates`: skip
packages whose declared templates directory is missing, accumulate the
conjunction of the per-package booleans, propagate an exception in flight. -/
def templatesStep (fs : FSNode) (acc : VState × Bool × Option String × Nat) (pkg : JVal) :
    VState × Bool × Option String × Nat :=
  match acc with
  | (st, av, some e, i) => (st, av, some e, i)
  | (st, av, none, i) =>
    if pkg.isNull then
      (st, av, some "Cannot read properties of null (reading \x27templates\x27)", i)
    else
    let tplV := pkg.getF "templates"
    if tplV.truthy && fsExistsJ fs tplV then
      match validatePackageTemplates fs pkg i st with
      | (st2, Except.error e) => (st2, av, some e, i + 1)
      | (st2, Except.ok ok) => (st2, av && ok, none, i + 1)
    else (st, av, none, i + 1)

/-- `PackageValidator.validateTemplates()`: re-reads and re-parses
`meta.yaml`, then runs the per-package template validation for every
package whose templates directory exists.  All exceptions are caught and
logged as `Failed to validate templates: ...`. -/
def validateTemplates (parse : String → Except String JVal) (fs : FSNode)
    (s : VState) : VState × Bool :=
  let s := log Level.info "Validating template files..." s
  if !pathExists fs "meta.yaml" then
    (log Level.error "meta.yaml not found, cannot validate templates" s, false)
  else
  match fs.readFile "meta.yaml" with
  | Except.error e => (log Level.error ("Failed to validate templates: " ++ e) s, false)
  | Except.ok content =>
  match parse content with
  | Except.error e => (log Level.error ("Failed to validate templates: " ++ e) s, false)
  | Except.ok meta =>
  if meta.isNull then
    (log Level.error
      "Failed to validate templates: Cannot read properties of null (reading \x27packages\x27)" s,
     false)
  else
  match meta.getF "packages" with
  | JVal.arr pkgs =>
    match pkgs.foldl (templatesStep fs) (s, true, none, 0) with
    | (st, _, some e, _) => (log Level.error ("Failed to validate templates: " ++ e) st, false)
    | (st, av, none, _) => (st, av)
  | JVal.null =>
    (log Level.error
      "Failed to validate templates: Cannot read properties of undefined (reading \x27forEach\x27)" s,
     false)
  | _ =>
    (log Level.error "Failed to validate templates: meta.packages.forEach is not a function" s,
     false)

/-- The structured content of `generateReport()`: the three counts it
prints, the listed warnings and errors, and the boolean verdict it
returns (`this.errors.length === 0`). -/
structure Report where
  checksPassed : Nat
  warningCount : Nat
  errorCount : Nat
  warningsList : List String
  errorsList : List String
  valid : Bool
deriving Repr, DecidableEq

/-- `PackageValidator.generateReport()`. -/
def generateReport (s : VState) : Report :=
  { checksPassed := s.info.length
    warningCount := s.warnings.length
    errorCount := s.errors.length
    warningsList := s.warnings
    errorsList := s.errors
    valid := s.errors.length == 0 }

/-- `PackageValidator.validate()`: meta validation, then template
validation only when the former returned true, then the report. -/
def validate (parse : String → Except String JVal) (fs : FSNode) (s : VState) :
    VState × Report :=
  let r := validateMetaYaml parse fs s
  let s2 := if r.2 then (validateTemplates parse fs r.1).1 else r.1
  (s2, generateReport s2)

/-! Field-level behaviour of `log` and `condLog`. -/

@[simp] theorem errors_log_error (m : String) (s : VState) :
    (log Level.error m s).errors = s.errors ++ [m] := rfl

@[simp] theorem warnings_log_error (m : String) (s : VState) :
    (log Level.error m s).warnings = s.warnings := rfl

@[simp] theorem info_log_error (m : String) (s : VState) :
    (log Level.error m s).info = s.info := rfl

@[simp] theorem errors_log_warning (m : String) (s : VState) :
    (log Level.warning m s).errors = s.errors := rfl

@[simp] theorem warnings_log_warning (m : String) (s : VState) :
    (log Level.warning m s).warnings = s.warnings ++ [m] := rfl

@[simp] theorem info_log_warning (m : String) (s : VState) :
    (log Level.warning m s).info = s.info := rfl

@[simp] theorem errors_log_info (m : String) (s : VState) :
    (log Level.info m s).errors = s.errors := rfl

@[simp] theorem warnings_log_info (m : String) (s : VState) :
    (log Level.info m s).warnings = s.warnings := rfl

@[simp] theorem info_log_info (m : String) (s : VState) :
    (log Level.info m s).info = s.info ++ [m] := rfl

@[simp] theorem errors_log_success (m : String) (s : VState) :
    (log Level.success m s).errors = s.errors := rfl

@[simp] theorem warnings_log_success (m : String) (s : VState) :
    (log Level.success m s).warnings = s.warnings := rfl

@[simp] theorem info_log_success (m : String) (s : VState) :
    (log Level.success m s).info = s.info := rfl

@[simp] theorem errors_condLog_error (c : Bool) (m : String) (s : VState) :
    (condLog c Level.error m s).errors = s.errors ++ (if c then [m] else []) := by
  cases c <;> simp [condLog]

@[simp] theorem warnings_condLog_error (c : Bool) (m : String) (s : VState) :
    (condLog c Level.error m s).warnings = s.warnings := by
  cases c <;> simp [condLog]

@[simp] theorem info_condLog_error (c : Bool) (m : String) (s : VState) :
    (condLog c Level.error m s).info = s.info := by
  cases c <;> simp [condLog]

@[simp] theorem errors_condLog_warning (c : Bool) (m : String) (s : VState) :
    (condLog c Level.warning m s).errors = s.errors := by
  cases c <;> simp [condLog]

@[simp] theorem warnings_condLog_warning (c : Bool) (m : String) (s : VState) :
    (condLog c Level.warning m s).warnings = s.warnings ++ (if c then [m] else []) := by
  cases c <;> simp [condLog]

@[simp] theorem info_condLog_warning (c : Bool) (m : String) (s : VState) :
    (condLog c Level.warning m s).info = s.info := by
  cases c <;> simp [condLog]

@[simp] theorem errors_condLog_success (c : Bool) (m : String) (s : VState) :
    (condLog c Level.success m s).errors = s.errors := by
  cases c <;> simp [condLog]

@[simp] theorem warnings_condLog_success (c : Bool) (m : String) (s : VState) :
    (condLog c Level.success m s).warnings = s.warnings := by
  cases c <;> simp [condLog]

@[simp] theorem info_condLog_success (c : Bool) (m : String) (s : VState) :
    (condLog c Level.success m s).info = s.info := by
  cases c <;> simp [condLog]

/-! Characterization of the missing-required-fields loop. -/

theorem missingFieldsLoop_nil (getF : String → JVal) (msgOf : String → String) (s : VState) :
    missingFieldsLoop [] getF msgOf s = s := rfl

theorem missingFieldsLoop_cons (f : String) (fs : List String) (getF : String → JVal)
    (msgOf : String → String) (s : VState) :
    missingFieldsLoop (f :: fs) getF msgOf s =
      missingFieldsLoop fs getF msgOf
        (if (getF f).truthy then s else log Level.error (msgOf f) s) := rfl

@[simp] theorem errors_missingFieldsLoop (fields : List String) (getF : String → JVal)
    (msgOf : String → String) (s : VState) :
    (missingFieldsLoop fields getF msgOf s).errors =
      s.errors ++ (fields.filter (fun f => !(getF f).truthy)).map msgOf := by
  induction fields generalizing s with
  | nil => simp [missingFieldsLoop_nil]
  | cons f fs ih =>
    rw [missingFieldsLoop_cons]
    by_cases hf : (getF f).truthy
    · simp [hf, ih, List.filter_cons]
    · simp only [Bool.not_eq_true] at hf
      simp [hf, ih, List.filter_cons]

@[simp] theorem warnings_missingFieldsLoop (fields : List String) (getF : String → JVal)
    (msgOf : String → String) (s : VState) :
    (missingFieldsLoop fields getF msgOf s).warnings = s.warnings := by
  induction fields generalizing s with
  | nil => simp [missingFieldsLoop_nil]
  | cons f fs ih =>
    rw [missingFieldsLoop_cons]
    by_cases hf : (getF f).truthy <;> simp [hf, ih]

@[simp] theorem info_missingFieldsLoop (fields : List String) (getF : String → JVal)
    (msgOf : String → String) (s : VState) :
    (missingFieldsLoop fields getF msgOf s).info = s.info := by
  induction fields generalizing s with
  | nil => simp [missingFieldsLoop_nil]
  | cons f fs ih =>
    rw [missingFieldsLoop_cons]
    by_cases hf : (getF f).truthy <;> simp [hf, ih]

/-! The append-only invariant: every validator operation only extends the
three finding lists. -/

/-- State `b` extends state `a`: each finding list of `a` is a prefix of
the corresponding list of `b`. -/
def FindingsLe (a b : VState) : Prop :=
  a.errors <+: b.errors ∧ a.warnings <+: b.warnings ∧ a.info <+: b.info

theorem findingsLe_refl (s : VState) : FindingsLe s s :=
  ⟨List.prefix_rfl, List.prefix_rfl, List.prefix_rfl⟩

theorem findingsLe_trans {a b c : VState} (h1 : FindingsLe a b) (h2 : FindingsLe b c) :
    FindingsLe a c :=
  ⟨h1.1.trans h2.1, h1.2.1.trans h2.2.1, h1.2.2.trans h2.2.2⟩

theorem prefixExt {x y z : List String} (h : x <+: y) : x <+: y ++ z :=
  h.trans (List.prefix_append y z)

theorem le_log (lvl : Level) (m : String) {a b : VState} (h : FindingsLe a b) :
    FindingsLe a (log lvl m b) := by
  obtain ⟨h1, h2, h3⟩ := h
  cases lvl
  · exact ⟨by simpa using prefixExt h1, by simpa using h2, by simpa using h3⟩
  · exact ⟨by simpa using h1, by simpa using prefixExt h2, by simpa using h3⟩
  · exact ⟨by simpa using h1, by simpa using h2, by simpa using prefixExt h3⟩
  · exact ⟨by simpa using h1, by simpa using h2, by simpa using h3⟩

theorem le_condLog (c : Bool) (lvl : Level) (m : String) {a b : VState}
    (h : FindingsLe a b) : FindingsLe a (condLog c lvl m b) := by
  cases c
  · simpa [condLog] using h
  · simpa [condLog] using le_log lvl m h

theorem le_missingFieldsLoop (fields : List String) (getF : String → JVal)
    (msgOf : String → String) {a b : VState} (h : FindingsLe a b) :
    FindingsLe a (missingFieldsLoop fields getF msgOf b) := by
  obtain ⟨h1, h2, h3⟩ := h
  exact ⟨by simpa using prefixExt h1, by simpa using h2, by simpa using h3⟩

theorem validatePackageDefinition_le (fs : FSNode) (pkg : JVal) (index : Nat) (s : VState) :
    FindingsLe s (validatePackageDefinition fs pkg index s).1 := by
  unfold validatePackageDefinition
  by_cases h0 : pkg.isNull = true <;> simp only [h0, if_true, if_false, Bool.false_eq_true]
  · exact findingsLe_refl s
  · by_cases hn : ((pkg.getF "name").truthy && !(pkg.getF "name").isStr) = true <;>
      simp only [hn, if_true, if_false, Bool.false_eq_true]
    · repeat
        first
        | exact findingsLe_refl s
        | apply le_condLog
        | apply le_missingFieldsLoop
        | apply le_log
    · by_cases hv : ((pkg.getF "version").truthy && !(pkg.getF "version").isStr) = true <;>
        simp only [hv, if_true, if_false, Bool.false_eq_true]
      · repeat
          first
          | exact findingsLe_refl s
          | apply le_condLog
          | apply le_missingFieldsLoop
          | apply le_log
      · repeat
          first
          | exact findingsLe_refl s
          | apply le_condLog
          | apply le_missingFieldsLoop
          | apply le_log

theorem packagesStep_le (fs : FSNode) (acc : VState × Option String × Nat) (pkg : JVal) :
    FindingsLe acc.1 (packagesStep fs acc pkg).1 := by
  obtain ⟨st, exc, i⟩ := acc
  cases exc
  · simpa [packagesStep] using validatePackageDefinition_le fs pkg i st
  · exact findingsLe_refl st

theorem packagesFold_le (fs : FSNode) (pkgs : List JVal) (acc : VState × Option String × Nat) :
    FindingsLe acc.1 (pkgs.foldl (packagesStep fs) acc).1 := by
  induction pkgs generalizing acc with
  | nil => exact findingsLe_refl _
  | cons p ps ih =>
    rw [List.foldl_cons]
    exact findingsLe_trans (packagesStep_le fs acc p) (ih _)

theorem validateMetaYaml_le (parse : String → Except String JVal) (fs : FSNode) (s : VState) :
    FindingsLe s (validateMetaYaml parse fs s).1 := by
  unfold validateMetaYaml
  by_cases he : pathExists fs "meta.yaml" = true <;>
    simp only [he, Bool.not_true, Bool.not_false, if_true, if_false, Bool.false_eq_true]
  case neg =>
    exact le_log _ _ (le_log _ _ (findingsLe_refl s))
  case pos =>
  rcases fs.readFile "meta.yaml" with e | content
  · exact le_log _ _ (le_log _ _ (findingsLe_refl s))
  · simp only
    rcases parse content with e | meta
    · exact le_log _ _ (le_log _ _ (findingsLe_refl s))
    · simp only
      by_cases h0 : meta.isNull = true <;> simp only [h0, if_true, if_false, Bool.false_eq_true]
      · exact le_log _ _ (le_log _ _ (findingsLe_refl s))
      · by_cases hv : ((meta.getF "version").truthy && !(meta.getF "version").isStr) = true <;>
          simp only [hv, if_true, if_false, Bool.false_eq_true]
        · exact le_log _ _ (le_missingFieldsLoop _ _ _ (le_log _ _ (findingsLe_refl s)))
        · set sbase := condLog
            ((meta.getF "version").truthy && !jvalStrMatches (meta.getF "version") metaVersionOk)
            Level.warning
            ("Version format should be X.Y (e.g., \"3.0\"), found: " ++ (meta.getF "version").toDisplay)
            (missingFieldsLoop requiredMetaFields meta.getF
              (fun field => "Missing required field in meta.yaml: " ++ field)
              (log Level.info "Validating meta.yaml..." s)) with hsb
          have hbase : FindingsLe s sbase := by
            rw [hsb]
            exact le_condLog _ _ _ (le_missingFieldsLoop _ _ _ (le_log _ _ (findingsLe_refl s)))
          rcases hp : meta.getF "packages" with _ | b | n | t | pkgs | flds
          · exact le_log _ _ hbase
          · exact le_log _ _ hbase
          · exact le_log _ _ hbase
          · exact le_log _ _ hbase
          · by_cases hem : pkgs.isEmpty = true <;>
              simp only [hem, if_true, if_false, Bool.false_eq_true]
            · exact le_log _ _ hbase
            · rcases hf : pkgs.foldl (packagesStep fs) (sbase, none, 0) with ⟨st, exc, i⟩
              have hfold := packagesFold_le fs pkgs (sbase, none, 0)
              rw [hf] at hfold
              cases exc <;> simp only [hf] <;>
                exact le_log _ _ (findingsLe_trans hbase hfold)
          · exact le_log _ _ hbase

theorem funcDocStep_le (filePath content : String) (st : VState) (m : List Char) :
    FindingsLe st (funcDocStep filePath content st m) := by
  unfold funcDocStep
  by_cases hp : isPublicName (replaceFirst ("func ".toList) [] m) = true <;>
    simp only [hp, if_true, if_false, Bool.false_eq_true]
  · exact le_condLog _ _ _ (findingsLe_refl st)
  · exact findingsLe_refl st

theorem funcDocFold_le (filePath content : String) (ms : List (List Char)) (st : VState) :
    FindingsLe st (ms.foldl (funcDocStep filePath content) st) := by
  induction ms generalizing st with
  | nil => exact findingsLe_refl st
  | cons m ms ih =>
    rw [List.foldl_cons]
    exact findingsLe_trans (funcDocStep_le filePath content st m) (ih _)

theorem le_funcDocFold (filePath content : String) (ms : List (List Char)) {a b : VState}
    (h : FindingsLe a b) : FindingsLe a (ms.foldl (funcDocStep filePath content) b) :=
  findingsLe_trans h (funcDocFold_le filePath content ms b)

theorem validateGoTemplate_le (filePath content : String) (pkg : JVal) (s : VState) :
    FindingsLe s (validateGoTemplate filePath content pkg s).1 := by
  unfold validateGoTemplate
  by_cases hd : goHasPackageDecl content = true <;>
    simp only [hd, Bool.not_true, Bool.not_false, if_true, if_false, Bool.false_eq_true]
  · by_cases hfx : jvalIsStrVal (pkg.getF "type") "fx-module" = true <;>
      simp only [hfx, if_true, if_false, Bool.false_eq_true]
    · exact le_log _ _ (le_funcDocFold _ _ _
        (le_condLog _ _ _ (le_condLog _ _ _ (findingsLe_refl s))))
    · exact le_log _ _ (le_funcDocFold _ _ _ (findingsLe_refl s))
  · exact le_log _ _ (findingsLe_refl s)

theorem validateReadmeTemplate_le (filePath content : String) (pkg : JVal) (s : VState) :
    FindingsLe s (validateReadmeTemplate filePath content pkg s).1 := by
  unfold validateReadmeTemplate
  exact le_log _ _ (le_condLog _ _ _ (le_condLog _ _ _ (le_condLog _ _ _ (findingsLe_refl s))))

theorem validateTemplateFile_le (fs : FSNode) (filePath : String) (pkg : JVal) (s : VState) :
    FindingsLe s (validateTemplateFile fs filePath pkg s).1 := by
  unfold validateTemplateFile
  rcases fs.readFile filePath with e | content
  · exact le_log _ _ (le_log _ _ (findingsLe_refl s))
  · simp only
    by_cases hg : strEndsWith filePath ".go.tmpl" = true <;>
      simp only [hg, if_true, if_false, Bool.false_eq_true]
    · exact findingsLe_trans
        (le_condLog _ _ _ (le_condLog _ _ _ (le_log _ _ (findingsLe_refl s))))
        (validateGoTemplate_le _ _ _ _)
    · by_cases hr : (strIncludes filePath "README" || strIncludes filePath "readme") = true <;>
        simp only [hr, if_true, if_false, Bool.false_eq_true]
      · exact findingsLe_trans
          (le_condLog _ _ _ (le_condLog _ _ _ (le_log _ _ (findingsLe_refl s))))
          (validateReadmeTemplate_le _ _ _ _)
      · exact le_condLog _ _ _ (le_condLog _ _ _ (le_log _ _ (findingsLe_refl s)))

theorem filesStep_le (fs : FSNode) (pkg : JVal) (acc : VState × Bool) (fp : String) :
    FindingsLe acc.1 (filesStep fs pkg acc fp).1 := by
  obtain ⟨st, av⟩ := acc
  simpa [filesStep] using validateTemplateFile_le fs fp pkg st

theorem filesFold_le (fs : FSNode) (pkg : JVal) (fps : List String) (acc : VState × Bool) :
    FindingsLe acc.1 (fps.foldl (filesStep fs pkg) acc).1 := by
  induction fps generalizing acc with
  | nil => exact findingsLe_refl _
  | cons fp fps ih =>
    rw [List.foldl_cons]
    exact findingsLe_trans (filesStep_le fs pkg acc fp) (ih _)

theorem validatePackageTemplates_le (fs : FSNode) (pkg : JVal) (index : Nat) (s : VState) :
    FindingsLe s (validatePackageTemplates fs pkg index s).1 := by
  unfold validatePackageTemplates
  dsimp only
  rcases findTemplateFilesJ fs (pkg.getF "templates") with e | templateFiles
  · exact le_log _ _ (findingsLe_refl s)
  · dsimp only
    by_cases hem : templateFiles.isEmpty = true <;>
      simp only [hem, if_true, if_false, Bool.false_eq_true]
    · exact le_log _ _ (le_log _ _ (findingsLe_refl s))
    · exact findingsLe_trans (le_log _ _ (le_log _ _ (findingsLe_refl s)))
        (filesFold_le fs pkg templateFiles
          (log Level.success
            ("Found " ++ toString templateFiles.length ++ " template files for " ++
              (pkg.getF "name").toDisplay)
            (log Level.info
              ("Validating templates for package: " ++ (pkg.getF "name").toDisplay) s), true))

theorem templatesStep_le (fs : FSNode) (acc : VState × Bool × Option String × Nat) (pkg : JVal) :
    FindingsLe acc.1 (templatesStep fs acc pkg).1 := by
  obtain ⟨st, av, exc, i⟩ := acc
  cases exc
  · unfold templatesStep
    by_cases h0 : pkg.isNull = true <;> simp only [h0, if_true, if_false, Bool.false_eq_true]
    · exact findingsLe_refl st
    · by_cases ht : ((pkg.getF "templates").truthy && fsExistsJ fs (pkg.getF "templates")) = true <;>
        simp only [ht, if_true, if_false, Bool.false_eq_true]
      · rcases hv : validatePackageTemplates fs pkg i st with ⟨st2, r⟩
        have := validatePackageTemplates_le fs pkg i st
        rw [hv] at this
        cases r <;> simpa using this
      · exact findingsLe_refl st
  · exact findingsLe_refl st

theorem templatesFold_le (fs : FSNode) (pkgs : List JVal) (acc : VState × Bool × Option String × Nat) :
    FindingsLe acc.1 (pkgs.foldl (templatesStep fs) acc).1 := by
  induction pkgs generalizing acc with
  | nil => exact findingsLe_refl _
  | cons p ps ih =>
    rw [List.foldl_cons]
    exact findingsLe_trans (templatesStep_le fs acc p) (ih _)

theorem validateTemplates_le (parse : String → Except String JVal) (fs : FSNode) (s : VState) :
    FindingsLe s (validateTemplates parse fs s).1 := by
  unfold validateTemplates
  by_cases he : pathExists fs "meta.yaml" = true <;>
    simp only [he, Bool.not_true, Bool.not_false, if_true, if_false, Bool.false_eq_true]
  case neg => exact le_log _ _ (le_log _ _ (findingsLe_refl s))
  case pos =>
  rcases fs.readFile "meta.yaml" with e | content
  · exact le_log _ _ (le_log _ _ (findingsLe_refl s))
  · simp only
    rcases parse content with e | meta
    · exact le_log _ _ (le_log _ _ (findingsLe_refl s))
    · simp only
      by_cases h0 : meta.isNull = true <;> simp only [h0, if_true, if_false, Bool.false_eq_true]
      · exact le_log _ _ (le_log _ _ (findingsLe_refl s))
      · rcases hp : meta.getF "packages" with _ | b | n | t | pkgs | flds
        · exact le_log _ _ (le_log _ _ (findingsLe_refl s))
        · exact le_log _ _ (le_log _ _ (findingsLe_refl s))
        · exact le_log _ _ (le_log _ _ (findingsLe_refl s))
        · exact le_log _ _ (le_log _ _ (findingsLe_refl s))
        · rcases hf : pkgs.foldl (templatesStep fs) (log Level.info "Validating template files..." s, true, none, 0)
            with ⟨st, av, exc, i⟩
          have hfold := templatesFold_le fs pkgs (log Level.info "Validating template files..." s, true, none, 0)
          rw [hf] at hfold
          have hbase : FindingsLe s st :=
            findingsLe_trans (le_log _ _ (findingsLe_refl s)) hfold
          cases exc <;> simp only [hf]
          · exact hbase
          · exact le_log _ _ hbase
        · exact le_log _ _ (le_log _ _ (findingsLe_refl s))

theorem validate_le (parse : String → Except String JVal) (fs : FSNode) (s : VState) :
    FindingsLe s (validate parse fs s).1 := by
  unfold validate
  rcases hm : validateMetaYaml parse fs s with ⟨s1, ok⟩
  have h1 := validateMetaYaml_le parse fs s
  rw [hm] at h1
  cases ok <;> simp only [if_true, if_false, Bool.false_eq_true]
  · exact h1
  · exact findingsLe_trans h1 (validateTemplates_le parse fs s1)

/-! Clock irrelevance: two states that agree on the three finding lists
(but may hold different wall-clock streams) stay in agreement through every
validator operation, and produce equal outputs.  This is what makes the
validator a deterministic function of the catalog document and the
filesystem: the timestamps `log` reads never influence a finding, a count
or the verdict. -/

/-- Agreement on the three finding lists (the clock streams may differ). -/
def FindingsEq (a b : VState) : Prop :=
  a.errors = b.errors ∧ a.warnings = b.warnings ∧ a.info = b.info

theorem findingsEq_refl (s : VState) : FindingsEq s s := ⟨rfl, rfl, rfl⟩

theorem rel_log (lvl : Level) (m : String) {a b : VState} (h : FindingsEq a b) :
    FindingsEq (log lvl m a) (log lvl m b) := by
  obtain ⟨h1, h2, h3⟩ := h
  cases lvl <;> exact ⟨by simp [h1], by simp [h2], by simp [h3]⟩

theorem rel_condLog (c : Bool) (lvl : Level) (m : String) {a b : VState}
    (h : FindingsEq a b) : FindingsEq (condLog c lvl m a) (condLog c lvl m b) := by
  cases c
  · simpa [condLog] using h
  · simpa [condLog] using rel_log lvl m h

theorem rel_missingFieldsLoop (fields : List String) (getF : String → JVal)
    (msgOf : String → String) {a b : VState} (h : FindingsEq a b) :
    FindingsEq (missingFieldsLoop fields getF msgOf a) (missingFieldsLoop fields getF msgOf b) := by
  obtain ⟨h1, h2, h3⟩ := h
  exact ⟨by simp [h1], by simp [h2], by simp [h3]⟩

theorem validatePackageDefinition_rel (fs : FSNode) (pkg : JVal) (index : Nat)
    {a b : VState} (h : FindingsEq a b) :
    FindingsEq (validatePackageDefinition fs pkg index a).1 (validatePackageDefinition fs pkg index b).1 ∧
    (validatePackageDefinition fs pkg index a).2 = (validatePackageDefinition fs pkg index b).2 := by
  unfold validatePackageDefinition
  by_cases h0 : pkg.isNull = true <;> simp only [h0, if_true, if_false, Bool.false_eq_true]
  · exact ⟨h, by trivial⟩
  · by_cases hn : ((pkg.getF "name").truthy && !(pkg.getF "name").isStr) = true <;>
      simp only [hn, if_true, if_false, Bool.false_eq_true]
    · exact ⟨rel_missingFieldsLoop _ _ _ (rel_log _ _ h), by trivial⟩
    · by_cases hv : ((pkg.getF "version").truthy && !(pkg.getF "version").isStr) = true <;>
        simp only [hv, if_true, if_false, Bool.false_eq_true]
      · refine ⟨?_, by trivial⟩
        apply rel_condLog
        apply rel_condLog
        apply rel_missingFieldsLoop
        exact rel_log _ _ h
      · refine ⟨?_, by trivial⟩
        repeat
          first
          | exact h
          | apply rel_condLog
          | apply rel_missingFieldsLoop
          | apply rel_log

theorem packagesStep_rel (fs : FSNode) (a b : VState × Option String × Nat) (pkg : JVal)
    (h : FindingsEq a.1 b.1) (h2 : a.2 = b.2) :
    FindingsEq (packagesStep fs a pkg).1 (packagesStep fs b pkg).1 ∧
    (packagesStep fs a pkg).2 = (packagesStep fs b pkg).2 := by
  obtain ⟨sa, exca, ia⟩ := a
  obtain ⟨sb, excb, ib⟩ := b
  simp only [Prod.mk.injEq] at h2
  obtain ⟨he, hi⟩ := h2
  subst he hi
  cases exca
  · simp only [packagesStep]
    have hr := validatePackageDefinition_rel fs pkg ia h
    exact ⟨hr.1, by simp [hr.2]⟩
  · exact ⟨h, by trivial⟩

theorem packagesFold_rel (fs : FSNode) (pkgs : List JVal)
    (a b : VState × Option String × Nat) (h : FindingsEq a.1 b.1) (h2 : a.2 = b.2) :
    FindingsEq (pkgs.foldl (packagesStep fs) a).1 (pkgs.foldl (packagesStep fs) b).1 ∧
    (pkgs.foldl (packagesStep fs) a).2 = (pkgs.foldl (packagesStep fs) b).2 := by
  induction pkgs generalizing a b with
  | nil => exact ⟨h, h2⟩
  | cons p ps ih =>
    rw [List.foldl_cons, List.foldl_cons]
    have step := packagesStep_rel fs a b p h h2
    exact ih _ _ step.1 step.2

theorem validateMetaYaml_rel (parse : String → Except String JVal) (fs : FSNode)
    {a b : VState} (h : FindingsEq a b) :
    FindingsEq (validateMetaYaml parse fs a).1 (validateMetaYaml parse fs b).1 ∧
    (validateMetaYaml parse fs a).2 = (validateMetaYaml parse fs b).2 := by
  unfold validateMetaYaml
  by_cases he : pathExists fs "meta.yaml" = true <;>
    simp only [he, Bool.not_true, Bool.not_false, if_true, if_false, Bool.false_eq_true]
  case neg => exact ⟨rel_log _ _ (rel_log _ _ h), by trivial⟩
  case pos =>
  rcases fs.readFile "meta.yaml" with e | content
  · exact ⟨rel_log _ _ (rel_log _ _ h), by trivial⟩
  · dsimp only
    rcases parse content with e | meta
    · exact ⟨rel_log _ _ (rel_log _ _ h), by trivial⟩
    · dsimp only
      by_cases h0 : meta.isNull = true <;> simp only [h0, if_true, if_false, Bool.false_eq_true]
      · exact ⟨rel_log _ _ (rel_log _ _ h), by trivial⟩
      · by_cases hv : ((meta.getF "version").truthy && !(meta.getF "version").isStr) = true <;>
          simp only [hv, if_true, if_false, Bool.false_eq_true]
        · exact ⟨rel_log _ _ (rel_missingFieldsLoop _ _ _ (rel_log _ _ h)), by trivial⟩
        · have hbase : FindingsEq
              (condLog ((meta.getF "version").truthy && !jvalStrMatches (meta.getF "version") metaVersionOk)
                Level.warning
                ("Version format should be X.Y (e.g., \"3.0\"), found: " ++ (meta.getF "version").toDisplay)
                (missingFieldsLoop requiredMetaFields meta.getF
                  (fun field => "Missing required field in meta.yaml: " ++ field)
                  (log Level.info "Validating meta.yaml..." a)))
              (condLog ((meta.getF "version").truthy && !jvalStrMatches (meta.getF "version") metaVersionOk)
                Level.warning
                ("Version format should be X.Y (e.g., \"3.0\"), found: " ++ (meta.getF "version").toDisplay)
                (missingFieldsLoop requiredMetaFields meta.getF
                  (fun field => "Missing required field in meta.yaml: " ++ field)
                  (log Level.info "Validating meta.yaml..." b))) :=
            rel_condLog _ _ _ (rel_missingFieldsLoop _ _ _ (rel_log _ _ h))
          rcases hp : meta.getF "packages" with _ | bb | n | t | pkgs | flds
          · exact ⟨rel_log _ _ hbase, by trivial⟩
          · exact ⟨rel_log _ _ hbase, by trivial⟩
          · exact ⟨rel_log _ _ hbase, by trivial⟩
          · exact ⟨rel_log _ _ hbase, by trivial⟩
          · by_cases hem : pkgs.isEmpty = true <;>
              simp only [hem, if_true, if_false, Bool.false_eq_true]
            · exact ⟨rel_log _ _ hbase, by trivial⟩
            · have hfold := packagesFold_rel fs pkgs
                (condLog ((meta.getF "version").truthy && !jvalStrMatches (meta.getF "version") metaVersionOk)
                  Level.warning
                  ("Version format should be X.Y (e.g., \"3.0\"), found: " ++ (meta.getF "version").toDisplay)
                  (missingFieldsLoop requiredMetaFields meta.getF
                    (fun field => "Missing required field in meta.yaml: " ++ field)
                    (log Level.info "Validating meta.yaml..." a)), none, 0)
                ((condLog ((meta.getF "version").truthy && !jvalStrMatches (meta.getF "version") metaVersionOk)
                  Level.warning
                  ("Version format should be X.Y (e.g., \"3.0\"), found: " ++ (meta.getF "version").toDisplay)
                  (missingFieldsLoop requiredMetaFields meta.getF
                    (fun field => "Missing required field in meta.yaml: " ++ field)
                    (log Level.info "Validating meta.yaml..." b))), none, 0) hbase rfl
              rcases hfa : pkgs.foldl (packagesStep fs)
                (condLog ((meta.getF "version").truthy && !jvalStrMatches (meta.getF "version") metaVersionOk)
                  Level.warning
                  ("Version format should be X.Y (e.g., \"3.0\"), found: " ++ (meta.getF "version").toDisplay)
                  (missingFieldsLoop requiredMetaFields meta.getF
                    (fun field => "Missing required field in meta.yaml: " ++ field)
                    (log Level.info "Validating meta.yaml..." a)), none, 0) with ⟨sta, exca, ia⟩
              rcases hfb : pkgs.foldl (packagesStep fs)
                (condLog ((meta.getF "version").truthy && !jvalStrMatches (meta.getF "version") metaVersionOk)
                  Level.warning
                  ("Version format should be X.Y (e.g., \"3.0\"), found: " ++ (meta.getF "version").toDisplay)
                  (missingFieldsLoop requiredMetaFields meta.getF
                    (fun field => "Missing required field in meta.yaml: " ++ field)
                    (log Level.info "Validating meta.yaml..." b)), none, 0) with ⟨stb, excb, ib⟩
              rw [hfa, hfb] at hfold
              obtain ⟨hst, hout⟩ := hfold
              simp only [Prod.mk.injEq] at hout
              obtain ⟨hexc, hidx⟩ := hout
              subst hexc
              cases exca <;> simp only
              · exact ⟨rel_log _ _ hst, by trivial⟩
              · exact ⟨rel_log _ _ hst, by trivial⟩
          · exact ⟨rel_log _ _ hbase, by trivial⟩

theorem funcDocStep_rel (filePath content : String) {a b : VState} (m : List Char)
    (h : FindingsEq a b) :
    FindingsEq (funcDocStep filePath content a m) (funcDocStep filePath content b m) := by
  unfold funcDocStep
  by_cases hp : isPublicName (replaceFirst ("func ".toList) [] m) = true <;>
    simp only [hp, if_true, if_false, Bool.false_eq_true]
  · exact rel_condLog _ _ _ h
  · exact h

theorem funcDocFold_rel (filePath content : String) (ms : List (List Char)) {a b : VState}
    (h : FindingsEq a b) :
    FindingsEq (ms.foldl (funcDocStep filePath content) a) (ms.foldl (funcDocStep filePath content) b) := by
  induction ms generalizing a b with
  | nil => exact h
  | cons m ms ih =>
    rw [List.foldl_cons, List.foldl_cons]
    exact ih (funcDocStep_rel filePath content m h)

theorem validateGoTemplate_rel (filePath content : String) (pkg : JVal) {a b : VState}
    (h : FindingsEq a b) :
    FindingsEq (validateGoTemplate filePath content pkg a).1 (validateGoTemplate filePath content pkg b).1 ∧
    (validateGoTemplate filePath content pkg a).2 = (validateGoTemplate filePath content pkg b).2 := by
  unfold validateGoTemplate
  by_cases hd : goHasPackageDecl content = true <;>
    simp only [hd, Bool.not_true, Bool.not_false, if_true, if_false, Bool.false_eq_true]
  · by_cases hfx : jvalIsStrVal (pkg.getF "type") "fx-module" = true <;>
      simp only [hfx, if_true, if_false, Bool.false_eq_true]
    · exact ⟨rel_log _ _ (funcDocFold_rel _ _ _ (rel_condLog _ _ _ (rel_condLog _ _ _ h))),
        by trivial⟩
    · exact ⟨rel_log _ _ (funcDocFold_rel _ _ _ h), by trivial⟩
  · exact ⟨rel_log _ _ h, by trivial⟩

theorem validateReadmeTemplate_rel (filePath content : String) (pkg : JVal) {a b : VState}
    (h : FindingsEq a b) :
    FindingsEq (validateReadmeTemplate filePath content pkg a).1 (validateReadmeTemplate filePath content pkg b).1 ∧
    (validateReadmeTemplate filePath content pkg a).2 = (validateReadmeTemplate filePath content pkg b).2 := by
  unfold validateReadmeTemplate
  exact ⟨rel_log _ _ (rel_condLog _ _ _ (rel_condLog _ _ _ (rel_condLog _ _ _ h))), by trivial⟩

theorem validateTemplateFile_rel (fs : FSNode) (filePath : String) (pkg : JVal) {a b : VState}
    (h : FindingsEq a b) :
    FindingsEq (validateTemplateFile fs filePath pkg a).1 (validateTemplateFile fs filePath pkg b).1 ∧
    (validateTemplateFile fs filePath pkg a).2 = (validateTemplateFile fs filePath pkg b).2 := by
  unfold validateTemplateFile
  rcases fs.readFile filePath with e | content
  · exact ⟨rel_log _ _ (rel_log _ _ h), by trivial⟩
  · dsimp only
    by_cases hg : strEndsWith filePath ".go.tmpl" = true <;>
      simp only [hg, if_true, if_false, Bool.false_eq_true]
    · exact validateGoTemplate_rel _ _ _
        (rel_condLog _ _ _ (rel_condLog _ _ _ (rel_log _ _ h)))
    · by_cases hr : (strIncludes filePath "README" || strIncludes filePath "readme") = true <;>
        simp only [hr, if_true, if_false, Bool.false_eq_true]
      · exact validateReadmeTemplate_rel _ _ _
          (rel_condLog _ _ _ (rel_condLog _ _ _ (rel_log _ _ h)))
      · exact ⟨rel_condLog _ _ _ (rel_condLog _ _ _ (rel_log _ _ h)), by trivial⟩

theorem filesStep_rel (fs : FSNode) (pkg : JVal) (a b : VState × Bool) (fp : String)
    (h : FindingsEq a.1 b.1) (h2 : a.2 = b.2) :
    FindingsEq (filesStep fs pkg a fp).1 (filesStep fs pkg b fp).1 ∧
    (filesStep fs pkg a fp).2 = (filesStep fs pkg b fp).2 := by
  obtain ⟨sa, ava⟩ := a
  obtain ⟨sb, avb⟩ := b
  simp only at h h2
  subst h2
  have hr := validateTemplateFile_rel fs fp pkg h
  exact ⟨hr.1, by simp [filesStep, hr.2]⟩

theorem filesFold_rel (fs : FSNode) (pkg : JVal) (fps : List String) (a b : VState × Bool)
    (h : FindingsEq a.1 b.1) (h2 : a.2 = b.2) :
    FindingsEq (fps.foldl (filesStep fs pkg) a).1 (fps.foldl (filesStep fs pkg) b).1 ∧
    (fps.foldl (filesStep fs pkg) a).2 = (fps.foldl (filesStep fs pkg) b).2 := by
  induction fps generalizing a b with
  | nil => exact ⟨h, h2⟩
  | cons fp fps ih =>
    rw [List.foldl_cons, List.foldl_cons]
    have step := filesStep_rel fs pkg a b fp h h2
    exact ih _ _ step.1 step.2

theorem validatePackageTemplates_rel (fs : FSNode) (pkg : JVal) (index : Nat) {a b : VState}
    (h : FindingsEq a b) :
    FindingsEq (validatePackageTemplates fs pkg index a).1 (validatePackageTemplates fs pkg index b).1 ∧
    (validatePackageTemplates fs pkg index a).2 = (validatePackageTemplates fs pkg index b).2 := by
  unfold validatePackageTemplates
  dsimp only
  rcases findTemplateFilesJ fs (pkg.getF "templates") with e | templateFiles
  · exact ⟨rel_log _ _ h, by trivial⟩
  · dsimp only
    by_cases hem : templateFiles.isEmpty = true <;>
      simp only [hem, if_true, if_false, Bool.false_eq_true]
    · exact ⟨rel_log _ _ (rel_log _ _ h), by trivial⟩
    · have hfold := filesFold_rel fs pkg templateFiles
        (log Level.success
          ("Found " ++ toString templateFiles.length ++ " template files for " ++
            (pkg.getF "name").toDisplay)
          (log Level.info
            ("Validating templates for package: " ++ (pkg.getF "name").toDisplay) a), true)
        (log Level.success
          ("Found " ++ toString templateFiles.length ++ " template files for " ++
            (pkg.getF "name").toDisplay)
          (log Level.info
            ("Validating templates for package: " ++ (pkg.getF "name").toDisplay) b), true)
        (rel_log _ _ (rel_log _ _ h)) rfl
      exact ⟨hfold.1, by simp [hfold.2]⟩

theorem templatesStep_rel (fs : FSNode) (a b : VState × Bool × Option String × Nat) (pkg : JVal)
    (h : FindingsEq a.1 b.1) (h2 : a.2 = b.2) :
    FindingsEq (templatesStep fs a pkg).1 (templatesStep fs b pkg).1 ∧
    (templatesStep fs a pkg).2 = (templatesStep fs b pkg).2 := by
  obtain ⟨sa, ava, exca, ia⟩ := a
  obtain ⟨sb, avb, excb, ib⟩ := b
  simp only [Prod.mk.injEq] at h2
  obtain ⟨hav, hexc, hidx⟩ := h2
  subst hav hexc hidx
  cases exca
  · unfold templatesStep
    by_cases h0 : pkg.isNull = true <;> simp only [h0, if_true, if_false, Bool.false_eq_true]
    · exact ⟨h, by trivial⟩
    · by_cases ht : ((pkg.getF "templates").truthy && fsExistsJ fs (pkg.getF "templates")) = true <;>
        simp only [ht, if_true, if_false, Bool.false_eq_true]
      · have hr := validatePackageTemplates_rel fs pkg ia h
        rcases hva : validatePackageTemplates fs pkg ia sa with ⟨sta, ra⟩
        rcases hvb : validatePackageTemplates fs pkg ia sb with ⟨stb, rb⟩
        rw [hva, hvb] at hr
        obtain ⟨hst, hout⟩ := hr
        simp only at hst hout
        subst hout
        cases ra <;> simp only
        · exact ⟨hst, by trivial⟩
        · exact ⟨hst, by trivial⟩
      · exact ⟨h, by trivial⟩
  · exact ⟨h, by trivial⟩

theorem templatesFold_rel (fs : FSNode) (pkgs : List JVal)
    (a b : VState × Bool × Option String × Nat) (h : FindingsEq a.1 b.1) (h2 : a.2 = b.2) :
    FindingsEq (pkgs.foldl (templatesStep fs) a).1 (pkgs.foldl (templatesStep fs) b).1 ∧
    (pkgs.foldl (templatesStep fs) a).2 = (pkgs.foldl (templatesStep fs) b).2 := by
  induction pkgs generalizing a b with
  | nil => exact ⟨h, h2⟩
  | cons p ps ih =>
    rw [List.foldl_cons, List.foldl_cons]
    have step := templatesStep_rel fs a b p h h2
    exact ih _ _ step.1 step.2

theorem validateTemplates_rel (parse : String → Except String JVal) (fs : FSNode) {a b : VState}
    (h : FindingsEq a b) :
    FindingsEq (validateTemplates parse fs a).1 (validateTemplates parse fs b).1 ∧
    (validateTemplates parse fs a).2 = (validateTemplates parse fs b).2 := by
  unfold validateTemplates
  by_cases he : pathExists fs "meta.yaml" = true <;>
    simp only [he, Bool.not_true, Bool.not_false, if_true, if_false, Bool.false_eq_true]
  case neg => exact ⟨rel_log _ _ (rel_log _ _ h), by trivial⟩
  case pos =>
  rcases fs.readFile "meta.yaml" with e | content
  · exact ⟨rel_log _ _ (rel_log _ _ h), by trivial⟩
  · dsimp only
    rcases parse content with e | meta
    · exact ⟨rel_log _ _ (rel_log _ _ h), by trivial⟩
    · dsimp only
      by_cases h0 : meta.isNull = true <;> simp only [h0, if_true, if_false, Bool.false_eq_true]
      · exact ⟨rel_log _ _ (rel_log _ _ h), by trivial⟩
      · rcases hp : meta.getF "packages" with _ | bb | n | t | pkgs | flds
        · exact ⟨rel_log _ _ (rel_log _ _ h), by trivial⟩
        · exact ⟨rel_log _ _ (rel_log _ _ h), by trivial⟩
        · exact ⟨rel_log _ _ (rel_log _ _ h), by trivial⟩
        · exact ⟨rel_log _ _ (rel_log _ _ h), by trivial⟩
        · dsimp only
          have hfold := templatesFold_rel fs pkgs
            (log Level.info "Validating template files..." a, true, none, 0)
            (log Level.info "Validating template files..." b, true, none, 0)
            (rel_log _ _ h) rfl
          rcases hfa : pkgs.foldl (templatesStep fs)
            (log Level.info "Validating template files..." a, true, none, 0) with ⟨sta, ava, exca, ia⟩
          rcases hfb : pkgs.foldl (templatesStep fs)
            (log Level.info "Validating template files..." b, true, none, 0) with ⟨stb, avb, excb, ib⟩
          rw [hfa, hfb] at hfold
          obtain ⟨hst, hout⟩ := hfold
          simp only [Prod.mk.injEq] at hout
          obtain ⟨hav, hexc, hidx⟩ := hout
          subst hav hexc hidx
          cases exca
          · exact ⟨hst, by trivial⟩
          · exact ⟨rel_log _ _ hst, by trivial⟩
        · exact ⟨rel_log _ _ (rel_log _ _ h), by trivial⟩

theorem generateReport_congr {a b : VState} (h : FindingsEq a b) :
    generateReport a = generateReport b := by
  obtain ⟨h1, h2, h3⟩ := h
  simp [generateReport, h1, h2, h3]

theorem validate_rel (parse : String → Except String JVal) (fs : FSNode) {a b : VState}
    (h : FindingsEq a b) :
    FindingsEq (validate parse fs a).1 (validate parse fs b).1 ∧
    (validate parse fs a).2 = (validate parse fs b).2 := by
  unfold validate
  have hm := validateMetaYaml_rel parse fs h
  rcases hma : validateMetaYaml parse fs a with ⟨sa1, oka⟩
  rcases hmb : validateMetaYaml parse fs b with ⟨sb1, okb⟩
  rw [hma, hmb] at hm
  obtain ⟨hst, hok⟩ := hm
  simp only at hst hok
  subst hok
  cases oka <;> simp only [if_true, if_false, Bool.false_eq_true]
  · exact ⟨hst, generateReport_congr hst⟩
  · have ht := validateTemplates_rel parse fs hst
    exact ⟨ht.1, generateReport_congr ht.1⟩

/-! Pure characterizations: the findings each checker appends, as functions
of its inputs only. -/

/-- The variable-syntax warning of `validateTemplateFile`. -/
def varWarn (filePath content : String) : List String :=
  if !(strIncludes content "\x7b\x7b" && strIncludes content "\x7d\x7d") then
    [filePath ++ ": No template variables found (might be a static file)"]
  else []

/-- The fx-module warnings of `validateGoTemplate`. -/
def fxWarnings (filePath content : String) (pkg : JVal) : List String :=
  if jvalIsStrVal (pkg.getF "type") "fx-module" then
    (if !strIncludes content "go.uber.org/fx" then
      [filePath ++ ": fx-module should import go.uber.org/fx"]
    else []) ++
    (if !(strIncludes content "var Module" || strIncludes content "func NewModule") then
      [filePath ++ ": fx-module should export Module or NewModule function"]
    else [])
  else []

/-- The documentation warning contributed by one `func` match. -/
def funcDocWarn (filePath content : String) (m : List Char) : List String :=
  let funcName := replaceFirst ("func ".toList) [] m
  if isPublicName funcName && !hasDocComment content funcName then
    [filePath ++ ": Public function " ++ String.mk funcName ++ " missing documentation comment"]
  else []

/-- All public-function documentation warnings of `validateGoTemplate`. -/
def funcDocWarnings (filePath content : String) : List String :=
  ((scanFuncMatches content.toList).map (funcDocWarn filePath content)).flatten

/-- The three documentation warnings of `validateReadmeTemplate`. -/
def readmeWarnings (filePath content : String) : List String :=
  (if !((["#", "##", "###"] : List String).any (fun heading => strIncludes content heading)) then
    [filePath ++ ": No markdown headings found"]
  else []) ++
  (if !strIncludes (jsToLower content) "install" then
    [filePath ++ ": No installation instructions found"]
  else []) ++
  (if !strIncludes content "```" then
    [filePath ++ ": No code examples found"]
  else [])

@[simp] theorem errors_funcDocStep (filePath content : String) (s : VState) (m : List Char) :
    (funcDocStep filePath content s m).errors = s.errors := by
  unfold funcDocStep
  dsimp only
  split <;> simp

@[simp] theorem warnings_funcDocStep (filePath content : String) (s : VState) (m : List Char) :
    (funcDocStep filePath content s m).warnings =
      s.warnings ++ funcDocWarn filePath content m := by
  unfold funcDocStep funcDocWarn
  set fn := replaceFirst ("func ".toList) [] m with hfn
  dsimp only
  split
  · next h => simp [h]
  · next h =>
    simp only [Bool.not_eq_true] at h
    simp [h]

@[simp] theorem info_funcDocStep (filePath content : String) (s : VState) (m : List Char) :
    (funcDocStep filePath content s m).info = s.info := by
  unfold funcDocStep
  dsimp only
  split <;> simp

@[simp] theorem errors_funcDocFold (filePath content : String) (ms : List (List Char)) (s : VState) :
    (ms.foldl (funcDocStep filePath content) s).errors = s.errors := by
  induction ms generalizing s with
  | nil => rfl
  | cons m ms ih => rw [List.foldl_cons]; simp [ih]

@[simp] theorem warnings_funcDocFold (filePath content : String) (ms : List (List Char)) (s : VState) :
    (ms.foldl (funcDocStep filePath content) s).warnings =
      s.warnings ++ (ms.map (funcDocWarn filePath content)).flatten := by
  induction ms generalizing s with
  | nil => simp
  | cons m ms ih => rw [List.foldl_cons]; simp [ih]

@[simp] theorem info_funcDocFold (filePath content : String) (ms : List (List Char)) (s : VState) :
    (ms.foldl (funcDocStep filePath content) s).info = s.info := by
  induction ms generalizing s with
  | nil => rfl
  | cons m ms ih => rw [List.foldl_cons]; simp [ih]

/-- `validateGoTemplate` on content with no package declaration: the error
is emitted and the function returns immediately - no fx-module rule and no
documentation rule runs. -/
theorem validateGoTemplate_noDecl (filePath content : String) (pkg : JVal) (s : VState)
    (hd : goHasPackageDecl content = false) :
    validateGoTemplate filePath content pkg s =
      (log Level.error (filePath ++ ": Missing package declaration") s, false) := by
  unfold validateGoTemplate
  simp [hd]

/-- `validateGoTemplate` on content with a package declaration: no errors,
and exactly the fx-module warnings followed by the documentation warnings,
each a function of the content alone. -/
theorem validateGoTemplate_spec (filePath content : String) (pkg : JVal) (s : VState)
    (hd : goHasPackageDecl content = true) :
    (validateGoTemplate filePath content pkg s).1.errors = s.errors ∧
    (validateGoTemplate filePath content pkg s).1.warnings =
      s.warnings ++ fxWarnings filePath content pkg ++ funcDocWarnings filePath content ∧
    (validateGoTemplate filePath content pkg s).1.info = s.info ∧
    (validateGoTemplate filePath content pkg s).2 = true := by
  unfold validateGoTemplate
  simp only [hd, Bool.not_true, Bool.false_eq_true, if_false]
  by_cases hfx : jvalIsStrVal (pkg.getF "type") "fx-module" = true <;>
    simp only [hfx, if_true, if_false, Bool.false_eq_true]
  · refine ⟨by simp, ?_, by simp, by trivial⟩
    simp [fxWarnings, hfx, funcDocWarnings]
  · simp only [Bool.not_eq_true] at hfx
    refine ⟨by simp, ?_, by simp, by trivial⟩
    simp [fxWarnings, hfx, funcDocWarnings]

/-- `validateReadmeTemplate` appends only its three conditional warnings,
never an error, and always succeeds. -/
theorem validateReadmeTemplate_spec (filePath content : String) (pkg : JVal) (s : VState) :
    (validateReadmeTemplate filePath content pkg s).1.errors = s.errors ∧
    (validateReadmeTemplate filePath content pkg s).1.warnings =
      s.warnings ++ readmeWarnings filePath content ∧
    (validateReadmeTemplate filePath content pkg s).1.info = s.info ∧
    (validateReadmeTemplate filePath content pkg s).2 = true := by
  unfold validateReadmeTemplate
  refine ⟨by simp, ?_, by simp, by trivial⟩
  simp [readmeWarnings]

/-- The info line of `validatePackageDefinition`. -/
def vpdInfoMsg (pkg : JVal) (index : Nat) : String :=
  "Validating package " ++ pkgNum index ++ ": " ++
    (if (pkg.getF "name").truthy then (pkg.getF "name").toDisplay else "unnamed")

/-- The missing-required-field errors of one package, in field order. -/
def vpdMissingMsgs (pkg : JVal) (index : Nat) : List String :=
  (requiredPackageFields.filter (fun f => !(pkg.getF f).truthy)).map
    (fun field => "Package " ++ pkgNum index ++ ": Missing required field: " ++ field)

/-- All error findings `validatePackageDefinition` emits for one package,
in emission order. -/
def vpdErrors (fs : FSNode) (pkg : JVal) (index : Nat) : List String :=
  vpdMissingMsgs pkg index ++
  (if (pkg.getF "name").truthy && !jvalStrMatches (pkg.getF "name") pkgNameOk then
    ["Package " ++ pkgNum index ++
     ": Invalid name format. Should be \x27org/package-name\x27, found: " ++
     (pkg.getF "name").toDisplay]
  else []) ++
  (if (pkg.getF "templates").truthy && !fsExistsJ fs (pkg.getF "templates") then
    ["Package " ++ pkgNum index ++ ": Templates directory not found: " ++
     (pkg.getF "templates").toDisplay]
  else []) ++
  (if (pkg.getF "tags").truthy && !(pkg.getF "tags").isArr then
    ["Package " ++ pkgNum index ++ ": tags field must be an array"]
  else []) ++
  (if (pkg.getF "dependencies").truthy && !(pkg.getF "dependencies").isArr then
    ["Package " ++ pkgNum index ++ ": dependencies field must be an array"]
  else [])

/-- All warning findings `validatePackageDefinition` emits for one package,
in emission order. -/
def vpdWarnings (pkg : JVal) (index : Nat) : List String :=
  (if (pkg.getF "type").truthy && !jvalInList (pkg.getF "type") validTypes then
    ["Package " ++ pkgNum index ++ ": Unknown type \x27" ++ (pkg.getF "type").toDisplay ++
     "\x27. Valid types: " ++ strJoin ", " validTypes]
  else []) ++
  (if (pkg.getF "version").truthy && !jvalStrMatches (pkg.getF "version") pkgVersionOk then
    ["Package " ++ pkgNum index ++
     ": Version should follow semantic versioning (e.g., \x27v1.0.0\x27), found: " ++
     (pkg.getF "version").toDisplay]
  else [])

/-- A package value whose `name` and `version` fields, when truthy, are
strings - the condition under which the package checker cannot throw. -/
def wellTypedPkg (pkg : JVal) : Bool :=
  !pkg.isNull &&
  (!(pkg.getF "name").truthy || (pkg.getF "name").isStr) &&
  (!(pkg.getF "version").truthy || (pkg.getF "version").isStr)

/-- Master characterization of `validatePackageDefinition` on a well-typed
package: no exception, and exactly the findings of `vpdErrors`,
`vpdWarnings`, `vpdInfoMsg` are appended. -/
theorem validatePackageDefinition_spec (fs : FSNode) (pkg : JVal) (index : Nat) (s : VState)
    (hw : wellTypedPkg pkg = true) :
    (validatePackageDefinition fs pkg index s).1.errors = s.errors ++ vpdErrors fs pkg index ∧
    (validatePackageDefinition fs pkg index s).1.warnings = s.warnings ++ vpdWarnings pkg index ∧
    (validatePackageDefinition fs pkg index s).1.info = s.info ++ [vpdInfoMsg pkg index] ∧
    (validatePackageDefinition fs pkg index s).2 = none := by
  unfold wellTypedPkg at hw
  simp only [Bool.and_eq_true, Bool.or_eq_true, Bool.not_eq_true'] at hw
  obtain ⟨⟨h0, h1⟩, h2⟩ := hw
  have hb1 : ((pkg.getF "name").truthy && !(pkg.getF "name").isStr) = false := by
    rcases h1 with h | h <;> simp [h]
  have hb2 : ((pkg.getF "version").truthy && !(pkg.getF "version").isStr) = false := by
    rcases h2 with h | h <;> simp [h]
  unfold validatePackageDefinition
  simp only [h0, hb1, hb2, Bool.false_eq_true, if_false]
  refine ⟨?_, ?_, ?_, by trivial⟩
  · simp [vpdErrors, vpdMissingMsgs]
  · simp [vpdWarnings]
  · simp [vpdInfoMsg]

/-- The missing-required-field errors of the catalog document. -/
def metaMissingMsgs (meta : JVal) : List String :=
  (requiredMetaFields.filter (fun f => !(meta.getF f).truthy)).map
    (fun field => "Missing required field in meta.yaml: " ++ field)

/-- The catalog version-format warning. -/
def metaVersionWarn (meta : JVal) : List String :=
  if (meta.getF "version").truthy && !jvalStrMatches (meta.getF "version") metaVersionOk then
    ["Version format should be X.Y (e.g., \"3.0\"), found: " ++ (meta.getF "version").toDisplay]
  else []

/-- `validateMetaYaml` on a readable, parseable catalog whose `packages`
field is not an array: the missing-field errors (which include a
`packages` line exactly when the field is falsy) are followed by the
must-be-an-array error, the function returns false, and no per-package
check runs (the info trail gains only the opening line). -/
theorem validateMetaYaml_nonArray_spec (parse : String → Except String JVal) (fs : FSNode)
    (s : VState) (content : String) (meta : JVal)
    (hex : pathExists fs "meta.yaml" = true)
    (hread : fs.readFile "meta.yaml" = Except.ok content)
    (hparse : parse content = Except.ok meta)
    (h0 : meta.isNull = false)
    (hv : ((meta.getF "version").truthy && !(meta.getF "version").isStr) = false)
    (hp : (meta.getF "packages").isArr = false) :
    (validateMetaYaml parse fs s).1.errors =
      s.errors ++ metaMissingMsgs meta ++ ["packages field must be an array"] ∧
    (validateMetaYaml parse fs s).1.warnings = s.warnings ++ metaVersionWarn meta ∧
    (validateMetaYaml parse fs s).1.info = s.info ++ ["Validating meta.yaml..."] ∧
    (validateMetaYaml parse fs s).2 = false := by
  unfold validateMetaYaml
  rw [hread]
  dsimp only
  rw [hparse]
  dsimp only
  simp only [hex, Bool.not_true, Bool.false_eq_true, if_false, h0, hv]
  rcases hpk : meta.getF "packages" with _ | b | n | t | pkgs | flds
  · refine ⟨?_, ?_, ?_, by trivial⟩
    · simp [metaMissingMsgs]
    · simp [metaVersionWarn]
    · simp
  · refine ⟨?_, ?_, ?_, by trivial⟩
    · simp [metaMissingMsgs]
    · simp [metaVersionWarn]
    · simp
  · refine ⟨?_, ?_, ?_, by trivial⟩
    · simp [metaMissingMsgs]
    · simp [metaVersionWarn]
    · simp
  · refine ⟨?_, ?_, ?_, by trivial⟩
    · simp [metaMissingMsgs]
    · simp [metaVersionWarn]
    · simp
  · rw [hpk] at hp
    simp [JVal.isArr] at hp
  · refine ⟨?_, ?_, ?_, by trivial⟩
    · simp [metaMissingMsgs]
    · simp [metaVersionWarn]
    · simp

/-! Concrete fixtures for counterexamples and witnesses. -/

/-- The fresh state of `new PackageValidator()`. -/
def emptyVState : VState := ⟨[], [], [], []⟩

/-- Template content with a hardcoded secret assignment. -/
def secretContent : String := "password = \"supersecret123\"\n\x7b\x7b.Title\x7d\x7d\n"

def fsSecret : FSNode := FSNode.dir
  [("meta.yaml", FSNode.file "x"),
   ("templates", FSNode.dir [("config.tmpl", FSNode.file secretContent)])]

def pkgUtility : JVal := JVal.obj
  [("name", JVal.str "acme/demo"), ("type", JVal.str "utility"),
   ("templates", JVal.str "templates")]

/-- A catalog whose first package has a numeric `name` (YAML `name: 123`)
and whose second package is missing `name`. -/
def metaNumName : JVal := JVal.obj
  [("version", JVal.str "3.0"), ("repository", JVal.str "r"),
   ("author", JVal.str "a"), ("license", JVal.str "MIT"),
   ("packages", JVal.arr
     [JVal.obj [("name", JVal.num 123), ("title", JVal.str "T"),
                ("description", JVal.str "D"), ("type", JVal.str "utility"),
                ("templates", JVal.str "t"), ("version", JVal.str "v1.0.0")],
      JVal.obj [("title", JVal.str "T2"), ("description", JVal.str "D2"),
                ("type", JVal.str "utility"), ("templates", JVal.str "t"),
                ("version", JVal.str "v1.0.0")]])]

def fsMetaOnly : FSNode := FSNode.dir [("meta.yaml", FSNode.file "doc")]

def parseNumName : String → Except String JVal := fun _ => Except.ok metaNumName

def pkgFxOnly : JVal := JVal.obj [("type", JVal.str "fx-module")]

/-- C1.  The spec (and the repository's TESTING guide, which lists
"Security pattern scanning" among the checks of `validate-package.js`)
requires a security scan of every template's content, with an error
Finding on any hardcoded-secret / process-execution / unsafe-operation
match.  `validateTemplateFile` contains no such scan: on a template whose
content is a literal `password = "supersecret123"` assignment it emits
zero error findings, zero warnings, and returns success. -/
theorem no_security_scan_on_secret_content :
    (validateTemplateFile fsSecret "templates/config.tmpl" pkgUtility emptyVState).1.errors = [] ∧
    (validateTemplateFile fsSecret "templates/config.tmpl" pkgUtility emptyVState).1.warnings = [] ∧
    (validateTemplateFile fsSecret "templates/config.tmpl" pkgUtility emptyVState).2 = true :=
  ⟨rfl, rfl, rfl⟩

/-- C2, counterexample.  On a catalog whose top-level structure is
well-formed, a first package with a numeric `name` throws a TypeError out
of `validatePackageDefinition` (`pkg.name.match is not a function`); the
`forEach` over packages aborts, so the second package's missing-`name`
condition is never reported - the final error list is exactly the single
caught-exception finding.  This refutes the claim that every per-package
condition is converted into a Finding and that a malformed package never
aborts its siblings' validation. -/
theorem nonString_name_aborts_siblings :
    (validateMetaYaml parseNumName fsMetaOnly emptyVState).1.errors =
      ["Failed to parse meta.yaml: pkg.name.match is not a function"] ∧
    ("Package 2: Missing required field: name" ∉
      (validateMetaYaml parseNumName fsMetaOnly emptyVState).1.errors) ∧
    (validateMetaYaml parseNumName fsMetaOnly emptyVState).2 = false := by
  have he : (validateMetaYaml parseNumName fsMetaOnly emptyVState).1.errors =
      ["Failed to parse meta.yaml: pkg.name.match is not a function"] := rfl
  refine ⟨he, ?_, rfl⟩
  rw [he]
  decide

/-- Helper for the amended C2: once every package of the list is
well-typed, the package loop keeps the no-exception state. -/
theorem packagesFold_noThrow (fs : FSNode) (pkgs : List JVal) :
    ∀ (st : VState) (i : Nat), (∀ pkg ∈ pkgs, wellTypedPkg pkg = true) →
      (pkgs.foldl (packagesStep fs) (st, none, i)).2.1 = none := by
  induction pkgs with
  | nil => intro st i _; rfl
  | cons p ps ih =>
    intro st i hall
    rw [List.foldl_cons]
    have hp := hall p (List.mem_cons_self p ps)
    have hexc := (validatePackageDefinition_spec fs p i st hp).2.2.2
    simp only [packagesStep, hexc]
    exact ih _ _ (fun q hq => hall q (List.mem_cons_of_mem p hq))

/-- C2, amended.  The package checker never throws on a package whose
`name` and `version` values, when present, are strings (every condition on
such a package becomes a Finding), and a catalog whose packages are all
such is looped over to completion with no exception in flight.  (A truthy
non-string `name`/`version` still throws, aborting the remaining siblings;
the exception is caught one level up and reported as a single
`Failed to parse meta.yaml` error, so the run itself always completes.) -/
theorem packageChecker_noThrow_for_wellTyped :
    (∀ (fs : FSNode) (pkg : JVal) (index : Nat) (s : VState),
      wellTypedPkg pkg = true →
      (validatePackageDefinition fs pkg index s).2 = none) ∧
    (∀ (fs : FSNode) (pkgs : List JVal) (s : VState),
      (∀ pkg ∈ pkgs, wellTypedPkg pkg = true) →
      (pkgs.foldl (packagesStep fs) (s, none, 0)).2.1 = none) :=
  ⟨fun fs pkg index s hw => (validatePackageDefinition_spec fs pkg index s hw).2.2.2,
   fun fs pkgs s hall => packagesFold_noThrow fs pkgs s 0 hall⟩

/-- C2, witness for the amended theorem. -/
theorem packageChecker_noThrow_witness :
    (validatePackageDefinition fsMetaOnly pkgUtility 0 emptyVState).2 = none ∧
    ([pkgUtility].foldl (packagesStep fsMetaOnly) (emptyVState, none, 0)).2.1 = none := by
  constructor
  · exact packageChecker_noThrow_for_wellTyped.1 fsMetaOnly pkgUtility 0 emptyVState (by decide)
  · exact packageChecker_noThrow_for_wellTyped.2 fsMetaOnly [pkgUtility] emptyVState
      (by intro pkg hpkg; simp at hpkg; subst hpkg; decide)

/-- C3, counterexample.  A `.go.tmpl` template of an fx-module package
whose content lacks the package declaration (and also lacks the fx import
and the Module export): the checker emits the declaration error and
returns at once, so the two fx-module rules are never evaluated - zero
warnings, although the claim says every applicable kind-specific rule is
evaluated regardless of earlier findings. -/
theorem goChecker_halts_on_missing_declaration :
    (validateGoTemplate "f.go.tmpl" "\x7b\x7b.Title\x7d\x7d\n" pkgFxOnly emptyVState).1.errors =
      ["f.go.tmpl: Missing package declaration"] ∧
    (validateGoTemplate "f.go.tmpl" "\x7b\x7b.Title\x7d\x7d\n" pkgFxOnly emptyVState).1.warnings = [] ∧
    (validateGoTemplate "f.go.tmpl" "\x7b\x7b.Title\x7d\x7d\n" pkgFxOnly emptyVState).2 = false :=
  ⟨rfl, rfl, rfl⟩

/-- C3, amended.  For a readable template dispatched as a Go template: the
variable-syntax check always runs; when the package declaration is present,
the fx-module rules and the per-function documentation rules are each
evaluated independently (each warning is a function of the content alone);
when it is missing, the checker emits that error and skips the remaining
kind-specific rules.  There is no security scan. -/
theorem templateChecker_rules_after_dispatch :
    ∀ (fs : FSNode) (fp content : String) (pkg : JVal) (s : VState),
      fs.readFile fp = Except.ok content →
      strEndsWith fp ".go.tmpl" = true →
      (goHasPackageDecl content = false →
        (validateTemplateFile fs fp pkg s).1.errors =
          s.errors ++ [fp ++ ": Missing package declaration"] ∧
        (validateTemplateFile fs fp pkg s).1.warnings = s.warnings ++ varWarn fp content ∧
        (validateTemplateFile fs fp pkg s).2 = false) ∧
      (goHasPackageDecl content = true →
        (validateTemplateFile fs fp pkg s).1.errors = s.errors ∧
        (validateTemplateFile fs fp pkg s).1.warnings =
          s.warnings ++ varWarn fp content ++ fxWarnings fp content pkg ++
            funcDocWarnings fp content ∧
        (validateTemplateFile fs fp pkg s).2 = true) := by
  intro fs fp content pkg s hread hgo
  unfold validateTemplateFile
  rw [hread]
  dsimp only
  simp only [hgo, if_true]
  constructor
  · intro hd
    rw [validateGoTemplate_noDecl _ _ _ _ hd]
    refine ⟨by simp [varWarn], by simp [varWarn], by trivial⟩
  · intro hd
    have hspec := validateGoTemplate_spec fp content pkg
      (condLog (!(commonVars.filter
          (fun v => strIncludes content ("\x7b\x7b." ++ v ++ "\x7d\x7d"))).isEmpty)
        Level.success
        (fp ++ ": Uses template variables: " ++
          strJoin ", " (commonVars.filter
            (fun v => strIncludes content ("\x7b\x7b." ++ v ++ "\x7d\x7d"))))
        (condLog (!(strIncludes content "\x7b\x7b" && strIncludes content "\x7d\x7d"))
          Level.warning (fp ++ ": No template variables found (might be a static file)")
          (log Level.info ("Validating template: " ++ fp) s))) hd
    refine ⟨by rw [hspec.1]; simp, ?_, hspec.2.2.2⟩
    rw [hspec.2.1]
    simp [varWarn]

def fsGoPair : FSNode := FSNode.dir
  [("a.go.tmpl", FSNode.file "x\n"),
   ("b.go.tmpl", FSNode.file "package b\n")]

/-- C3, witness for the amended theorem: both branches at concrete
inputs. -/
theorem templateChecker_rules_witness :
    (validateTemplateFile fsGoPair "a.go.tmpl" pkgFxOnly emptyVState).1.errors =
      ["a.go.tmpl: Missing package declaration"] ∧
    (validateTemplateFile fsGoPair "b.go.tmpl" pkgFxOnly emptyVState).1.errors = [] ∧
    (validateTemplateFile fsGoPair "b.go.tmpl" pkgFxOnly emptyVState).1.warnings =
      ["b.go.tmpl: No template variables found (might be a static file)",
       "b.go.tmpl: fx-module should import go.uber.org/fx",
       "b.go.tmpl: fx-module should export Module or NewModule function"] := by
  have ha := (templateChecker_rules_after_dispatch fsGoPair "a.go.tmpl" "x\n" pkgFxOnly
    emptyVState rfl rfl).1 rfl
  have hb := (templateChecker_rules_after_dispatch fsGoPair "b.go.tmpl" "package b\n" pkgFxOnly
    emptyVState rfl rfl).2 rfl
  refine ⟨by simpa using ha.1, by simpa using hb.1, ?_⟩
  have := hb.2.1
  rw [this]
  rfl

/-- C4.  The verdict of every run is `errors.length === 0`: `validate`
returns the report of its final state, the report's `valid` bit is exactly
the emptiness of the error list, and the warning and info lists (and the
clock) never influence it. -/
theorem verdict_iff_no_errors :
    (∀ (parse : String → Except String JVal) (fs : FSNode) (s : VState),
      (validate parse fs s).2.valid = ((validate parse fs s).1.errors.length == 0)) ∧
    (∀ s : VState, (generateReport s).valid = (s.errors.length == 0)) ∧
    (∀ (s : VState) (w i c : List String),
      (generateReport { s with warnings := w, info := i, clock := c }).valid =
        (generateReport s).valid) :=
  ⟨fun _ _ _ => rfl, fun _ => rfl, fun _ _ _ _ => rfl⟩

/-- C5.  First part: a package whose declared templates path is a string
naming no existing directory, with every required field present and every
other error condition clean, yields exactly one error finding - the
missing-templates-directory message - and no exception.  Second part: the
per-package step of `validateTemplates` skips such a package entirely
(`validatePackageTemplates`, and hence template discovery, is never
invoked) and hands the unchanged state to the next sibling, which is
therefore processed exactly as if the broken package were absent. -/
theorem missing_templatesDir_one_error_no_discovery :
    (∀ (fs : FSNode) (pkg : JVal) (index : Nat) (s : VState) (d : String),
      wellTypedPkg pkg = true →
      vpdMissingMsgs pkg index = [] →
      ((pkg.getF "name").truthy && !jvalStrMatches (pkg.getF "name") pkgNameOk) = false →
      ((pkg.getF "tags").truthy && !(pkg.getF "tags").isArr) = false →
      ((pkg.getF "dependencies").truthy && !(pkg.getF "dependencies").isArr) = false →
      pkg.getF "templates" = JVal.str d →
      (pkg.getF "templates").truthy = true →
      pathExists fs d = false →
      (validatePackageDefinition fs pkg index s).1.errors =
        s.errors ++ ["Package " ++ pkgNum index ++ ": Templates directory not found: " ++ d] ∧
      (validatePackageDefinition fs pkg index s).2 = none) ∧
    (∀ (fs : FSNode) (pkg : JVal) (st : VState) (av : Bool) (i : Nat),
      pkg.isNull = false →
      fsExistsJ fs (pkg.getF "templates") = false →
      templatesStep fs (st, av, none, i) pkg = (st, av, none, i + 1)) := by
  constructor
  · intro fs pkg index s d hw hmiss hname htags hdeps htpl htr hex
    have hspec := validatePackageDefinition_spec fs pkg index s hw
    refine ⟨?_, hspec.2.2.2⟩
    rw [hspec.1]
    have hexJ : fsExistsJ fs (pkg.getF "templates") = false := by
      rw [htpl]; simpa [fsExistsJ] using hex
    have hdisp : (pkg.getF "templates").toDisplay = d := by rw [htpl]; rfl
    simp [vpdErrors, hmiss, hname, htags, hdeps, hexJ, htr, hdisp]
  · intro fs pkg st av i h0 hex
    unfold templatesStep
    simp [h0, hex]

def pkgNoDir : JVal := JVal.obj
  [("name", JVal.str "acme/demo"), ("title", JVal.str "T"),
   ("description", JVal.str "D"), ("type", JVal.str "utility"),
   ("templates", JVal.str "nope"), ("version", JVal.str "v1.0.0")]

/-- C5, witness: both parts applied at a concrete package whose templates
directory `nope` does not exist in the concrete filesystem. -/
theorem missing_templatesDir_witness :
    (validatePackageDefinition fsMetaOnly pkgNoDir 0 emptyVState).1.errors =
      ["Package 1: Templates directory not found: nope"] ∧
    templatesStep fsMetaOnly (emptyVState, true, none, 0) pkgNoDir =
      (emptyVState, true, none, 1) := by
  constructor
  · have h := (missing_templatesDir_one_error_no_discovery.1 fsMetaOnly pkgNoDir 0 emptyVState
      "nope" (by decide) (by decide) (by decide) (by decide) (by decide) rfl (by decide)
      (by decide)).1
    simpa using h
  · exact missing_templatesDir_one_error_no_discovery.2 fsMetaOnly pkgNoDir emptyVState true 0
      rfl (by decide)

/-- C6.  A package object missing both `name` and `version` gets an
independent error finding naming each of the two fields (with the 1-based
package index), and in the same single pass every other missing required
field is reported as well - the loop never short-circuits. -/
theorem missing_fields_all_reported :
    ∀ (fs : FSNode) (fields : List (String × JVal)) (index : Nat) (s : VState),
      ((JVal.obj fields).getF "name").truthy = false →
      ((JVal.obj fields).getF "version").truthy = false →
      (("Package " ++ pkgNum index ++ ": Missing required field: " ++ "name") ∈
        (validatePackageDefinition fs (JVal.obj fields) index s).1.errors) ∧
      (("Package " ++ pkgNum index ++ ": Missing required field: " ++ "version") ∈
        (validatePackageDefinition fs (JVal.obj fields) index s).1.errors) ∧
      (∀ f ∈ requiredPackageFields, ((JVal.obj fields).getF f).truthy = false →
        ("Package " ++ pkgNum index ++ ": Missing required field: " ++ f) ∈
          (validatePackageDefinition fs (JVal.obj fields) index s).1.errors) := by
  intro fs fields index s hname hver
  have hw : wellTypedPkg (JVal.obj fields) = true := by
    simp [wellTypedPkg, JVal.isNull, hname, hver]
  have hspec := validatePackageDefinition_spec fs (JVal.obj fields) index s hw
  have hmem : ∀ f ∈ requiredPackageFields, ((JVal.obj fields).getF f).truthy = false →
      ("Package " ++ pkgNum index ++ ": Missing required field: " ++ f) ∈
        (validatePackageDefinition fs (JVal.obj fields) index s).1.errors := by
    intro f hf hfalsy
    rw [hspec.1]
    apply List.mem_append_right
    unfold vpdErrors
    apply List.mem_append_left
    apply List.mem_append_left
    apply List.mem_append_left
    apply List.mem_append_left
    unfold vpdMissingMsgs
    exact List.mem_map_of_mem _ (List.mem_filter.mpr ⟨hf, by simp [hfalsy]⟩)
  refine ⟨?_, ?_, hmem⟩
  · exact hmem "name" (by decide) hname
  · exact hmem "version" (by decide) hver

def pkgMissingBoth : JVal := JVal.obj
  [("title", JVal.str "T"), ("description", JVal.str "D"),
   ("type", JVal.str "utility"), ("templates", JVal.str "t")]

/-- C6, witness at a concrete package missing `name` and `version`. -/
theorem missing_fields_witness :
    ("Package 1: Missing required field: name" ∈
      (validatePackageDefinition fsMetaOnly pkgMissingBoth 0 emptyVState).1.errors) ∧
    ("Package 1: Missing required field: version" ∈
      (validatePackageDefinition fsMetaOnly pkgMissingBoth 0 emptyVState).1.errors) := by
  have h := missing_fields_all_reported fsMetaOnly
    [("title", JVal.str "T"), ("description", JVal.str "D"),
     ("type", JVal.str "utility"), ("templates", JVal.str "t")] 0 emptyVState rfl rfl
  exact ⟨h.1, h.2.1⟩

def fsMixedReadme : FSNode := FSNode.dir
  [("templates", FSNode.dir
    [("ReadMe.md.tmpl", FSNode.file "\x7b\x7b.Title\x7d\x7d welcome\n")])]

/-- C7, counterexample.  The dispatch tests only the literal substrings
`README` and `readme`: a template at `templates/ReadMe.md.tmpl` - whose
path contains the word "readme" in mixed casing - with content lacking any
heading, the substring "install" and any code fence is not dispatched to
the documentation checks at all: zero warnings, although the claim
requires three. -/
theorem mixedCase_readme_not_checked :
    (validateTemplateFile fsMixedReadme "templates/ReadMe.md.tmpl" pkgUtility
      emptyVState).1.warnings = [] ∧
    (validateTemplateFile fsMixedReadme "templates/ReadMe.md.tmpl" pkgUtility
      emptyVState).1.errors = [] ∧
    (validateTemplateFile fsMixedReadme "templates/ReadMe.md.tmpl" pkgUtility
      emptyVState).2 = true :=
  ⟨rfl, rfl, rfl⟩

/-- C7, amended.  For every readable template not dispatched as a Go
template whose path contains the literal substring `README` or `readme`
(exact casing - not arbitrary mixed casing), the documentation checks
apply: a warning for a missing markdown heading marker, a warning for a
missing case-insensitive "install", a warning for a missing fenced code
block - and no error. -/
theorem readme_checks_characterization :
    ∀ (fs : FSNode) (fp content : String) (pkg : JVal) (s : VState),
      fs.readFile fp = Except.ok content →
      strEndsWith fp ".go.tmpl" = false →
      (strIncludes fp "README" || strIncludes fp "readme") = true →
      (validateTemplateFile fs fp pkg s).1.errors = s.errors ∧
      (validateTemplateFile fs fp pkg s).1.warnings =
        s.warnings ++ varWarn fp content ++ readmeWarnings fp content ∧
      (validateTemplateFile fs fp pkg s).2 = true := by
  intro fs fp content pkg s hread hgo hrm
  unfold validateTemplateFile
  rw [hread]
  dsimp only
  simp only [hgo, hrm, if_true, if_false, Bool.false_eq_true]
  have hspec := validateReadmeTemplate_spec fp content pkg
    (condLog (!(commonVars.filter
        (fun v => strIncludes content ("\x7b\x7b." ++ v ++ "\x7d\x7d"))).isEmpty)
      Level.success
      (fp ++ ": Uses template variables: " ++
        strJoin ", " (commonVars.filter
          (fun v => strIncludes content ("\x7b\x7b." ++ v ++ "\x7d\x7d"))))
      (condLog (!(strIncludes content "\x7b\x7b" && strIncludes content "\x7d\x7d"))
        Level.warning (fp ++ ": No template variables found (might be a static file)")
        (log Level.info ("Validating template: " ++ fp) s)))
  refine ⟨by rw [hspec.1]; simp, ?_, hspec.2.2.2⟩
  rw [hspec.2.1]
  simp [varWarn]

def fsLowerReadme : FSNode := FSNode.dir
  [("templates", FSNode.dir
    [("readme.md.tmpl", FSNode.file "\x7b\x7b.Title\x7d\x7d welcome\n")])]

/-- C7, witness for the amended theorem: a lowercase `readme` path with
content lacking all three conventions gets exactly the three warnings and
no error. -/
theorem readme_checks_witness :
    (validateTemplateFile fsLowerReadme "templates/readme.md.tmpl" pkgUtility
      emptyVState).1.errors = [] ∧
    (validateTemplateFile fsLowerReadme "templates/readme.md.tmpl" pkgUtility
      emptyVState).1.warnings =
      ["templates/readme.md.tmpl: No markdown headings found",
       "templates/readme.md.tmpl: No installation instructions found",
       "templates/readme.md.tmpl: No code examples found"] := by
  have h := readme_checks_characterization fsLowerReadme "templates/readme.md.tmpl"
    "\x7b\x7b.Title\x7d\x7d welcome\n" pkgUtility emptyVState rfl rfl rfl
  refine ⟨by simpa using h.1, ?_⟩
  rw [h.2.1]
  rfl

/-- C8.  The validator is a deterministic function of the catalog document
(via the parser) and the filesystem: two complete runs from a fresh state
that differ only in the wall-clock stream `log` reads produce the same
error list, the same warning list, the same info list, and the same report
(counts, listed findings and verdict). -/
theorem validator_deterministic :
    ∀ (parse : String → Except String JVal) (fs : FSNode) (c1 c2 : List String),
      (validate parse fs ⟨c1, [], [], []⟩).1.errors =
        (validate parse fs ⟨c2, [], [], []⟩).1.errors ∧
      (validate parse fs ⟨c1, [], [], []⟩).1.warnings =
        (validate parse fs ⟨c2, [], [], []⟩).1.warnings ∧
      (validate parse fs ⟨c1, [], [], []⟩).1.info =
        (validate parse fs ⟨c2, [], [], []⟩).1.info ∧
      (validate parse fs ⟨c1, [], [], []⟩).2 = (validate parse fs ⟨c2, [], [], []⟩).2 := by
  intro parse fs c1 c2
  have heq : FindingsEq (⟨c1, [], [], []⟩ : VState) ⟨c2, [], [], []⟩ := ⟨rfl, rfl, rfl⟩
  have h := validate_rel parse fs heq
  exact ⟨h.1.1, h.1.2.1, h.1.2.2, h.2⟩

/-- A catalog whose `packages` field is a truthy non-array value. -/
def metaStrPackages : JVal := JVal.obj
  [("version", JVal.str "3.0"), ("repository", JVal.str "r"),
   ("author", JVal.str "a"), ("license", JVal.str "MIT"),
   ("packages", JVal.str "oops")]

def parseStrPackages : String → Except String JVal := fun _ => Except.ok metaStrPackages

/-- C9, counterexample.  When `packages` is present but a truthy
non-array value (here the string "oops"), the run emits only the single
`packages field must be an array` error - the missing-required-field error
the claim also demands never appears, because the field is truthy. -/
theorem truthy_nonArray_packages_single_error :
    (validateMetaYaml parseStrPackages fsMetaOnly emptyVState).1.errors =
      ["packages field must be an array"] ∧
    (validateMetaYaml parseStrPackages fsMetaOnly emptyVState).2 = false :=
  ⟨rfl, rfl⟩

/-- C9, amended.  On a readable, parseable catalog whose `packages` field
is not an array, the run emits the missing-required-field errors for every
falsy top-level field (hence a `packages` missing-field error exactly when
`packages` is absent or falsy, and no such error when it is truthy),
followed by the must-be-an-array error; meta validation returns false, so
the run stops before any per-package or template check (the info trail
gains only the opening line and the final state is the meta-phase state),
and the verdict is fail. -/
theorem nonArray_packages_stops_run :
    ∀ (parse : String → Except String JVal) (fs : FSNode) (s : VState)
      (content : String) (meta : JVal),
      pathExists fs "meta.yaml" = true →
      fs.readFile "meta.yaml" = Except.ok content →
      parse content = Except.ok meta →
      meta.isNull = false →
      ((meta.getF "version").truthy && !(meta.getF "version").isStr) = false →
      (meta.getF "packages").isArr = false →
      (validateMetaYaml parse fs s).1.errors =
        s.errors ++ metaMissingMsgs meta ++ ["packages field must be an array"] ∧
      (validateMetaYaml parse fs s).2 = false ∧
      (validateMetaYaml parse fs s).1.info = s.info ++ ["Validating meta.yaml..."] ∧
      (validate parse fs s).1 = (validateMetaYaml parse fs s).1 ∧
      (validate parse fs s).2.valid = false := by
  intro parse fs s content meta hex hread hparse h0 hv hp
  have hspec := validateMetaYaml_nonArray_spec parse fs s content meta hex hread hparse h0 hv hp
  have hskip : (validate parse fs s).1 = (validateMetaYaml parse fs s).1 := by
    unfold validate
    rcases hm : validateMetaYaml parse fs s with ⟨s1, ok⟩
    have : ok = false := by
      have := hspec.2.2.2
      rw [hm] at this
      exact this
    subst this
    simp
  refine ⟨hspec.1, hspec.2.2.2, hspec.2.2.1, hskip, ?_⟩
  have hval : (validate parse fs s).2 = generateReport (validate parse fs s).1 := rfl
  rw [hval, hskip]
  simp [generateReport, hspec.1]

/-- C9, witness for the amended theorem, at a concrete catalog with
`packages: "oops"` (all other top-level fields present). -/
theorem nonArray_packages_witness :
    (validateMetaYaml parseStrPackages fsMetaOnly emptyVState).1.errors =
      ["packages field must be an array"] ∧
    (validate parseStrPackages fsMetaOnly emptyVState).2.valid = false := by
  have h := nonArray_packages_stops_run parseStrPackages fsMetaOnly emptyVState "doc"
    metaStrPackages rfl rfl rfl rfl rfl rfl
  refine ⟨?_, h.2.2.2.2⟩
  have he := h.1
  rw [he]
  rfl

/-- C10.  The three finding collections are append-only throughout a run:
`log` appends its message to exactly the list matching the severity and
leaves the other two untouched (`success` touches none), every complete
`validate` run only extends each of the three lists of the state it
started from (no entry is removed or modified), and the report's three
counts and two listed collections are exactly the lengths and contents of
the final lists. -/
theorem findings_append_only :
    (∀ (m : String) (s : VState),
      (log Level.error m s).errors = s.errors ++ [m] ∧
      (log Level.error m s).warnings = s.warnings ∧
      (log Level.error m s).info = s.info) ∧
    (∀ (m : String) (s : VState),
      (log Level.warning m s).warnings = s.warnings ++ [m] ∧
      (log Level.warning m s).errors = s.errors ∧
      (log Level.warning m s).info = s.info) ∧
    (∀ (m : String) (s : VState),
      (log Level.info m s).info = s.info ++ [m] ∧
      (log Level.info m s).errors = s.errors ∧
      (log Level.info m s).warnings = s.warnings) ∧
    (∀ (m : String) (s : VState),
      (log Level.success m s).errors = s.errors ∧
      (log Level.success m s).warnings = s.warnings ∧
      (log Level.success m s).info = s.info) ∧
    (∀ (parse : String → Except String JVal) (fs : FSNode) (s : VState),
      s.errors <+: (validate parse fs s).1.errors ∧
      s.warnings <+: (validate parse fs s).1.warnings ∧
      s.info <+: (validate parse fs s).1.info) ∧
    (∀ s : VState,
      (generateReport s).errorCount = s.errors.length ∧
      (generateReport s).warningCount = s.warnings.length ∧
      (generateReport s).checksPassed = s.info.length ∧
      (generateReport s).errorsList = s.errors ∧
      (generateReport s).warningsList = s.warnings) :=
  ⟨fun _ _ => ⟨rfl, rfl, rfl⟩,
   fun _ _ => ⟨rfl, rfl, rfl⟩,
   fun _ _ => ⟨rfl, rfl, rfl⟩,
   fun _ _ => ⟨rfl, rfl, rfl⟩,
   fun parse fs s => validate_le parse fs s,
   fun _ => ⟨rfl, rfl, rfl, rfl, rfl⟩⟩
